import Mathlib

/-!
# A verification development for the `zero_copy` combinator engine

This file shallowly embeds the combinator execution engine of
`src/zero_copy/combinator.rs`: the dual-mode (`Check`/`Emit`) execution
protocol, the input-cursor protocol it drives, and the combinator algebra
(`Filter`, `Map`, `Then`, `ThenWith`, `Or`, `Not`, `OrNot`, `AndIs`,
`Rewind`, `Repeated`, `SeparatedBy`, `RepeatedExactly`, ...), and proves
the behavioural properties stated about them.

Modelling conventions:
* Tokens are drawn from an arbitrary type `Tok`; outputs live in a single
  universal value type `Val Tok` (unit, token, pair, list, option), which
  monomorphises the Rust output type parameters. The user state type `S`
  is monomorphised to `Nat`, and the `&mut S` closures of the `WithState`
  combinators become explicit state transformers.
* The input reference (`InputRef` in the Rust source, declared outside
  `combinator.rs`) is modelled from the spec's input capability: a token
  list plus a cursor offset, with `save` returning the offset, `rewind`
  restoring it, `next` advancing one token (returning the new offset and
  the token, or the unchanged offset and `none` at end of input),
  `slice`/`span_since` derived from offsets, plus the list of secondary
  errors emitted by recovery combinators.
* The execution mode is `Mode.check` / `Mode.emit`; the mode-shaped output
  type `M::Output<T>` becomes `MOut Tok m` (`Unit` for check, `Val Tok`
  for emit), and `M::bind` / `M::map` / `M::combine` become `Mode.bindV` /
  `Mode.mapV` / `Mode.combineV`.
* `inp.last_pos()` (used by `Filter`, `TryMap` and `TryMapWithState` to
  position their located errors, and declared outside `combinator.rs`) is
  modelled as the current cursor offset, following the spec's description
  of `TryMap`: "produces a located error positioned at the *current*
  cursor (after consumption)".
* The Rust `go` methods are partial (a child that succeeds while consuming
  nothing makes `Repeated` loop forever), so the interpreter `go` is
  step-indexed by a fuel parameter; `none` marks fuel exhaustion
  (divergence), `some` carries the Rust result together with the final
  state of the input reference.
-/

namespace ZeroCopy

/-- A span over the input, as a pair of offsets (`I::Span` for slice-like
inputs). -/
structure Span where
  start : Nat
  stop : Nat
deriving DecidableEq, Repr

/-- The error capability, modelled from the spec: an "expected one of /
found" error carrying a list of expectation descriptors, an optional found
token and a span. -/
structure Err (Tok : Type) where
  expected : List (Option Tok)
  found : Option Tok
  span : Span
deriving DecidableEq, Repr

/-- Construct an expected/found error (`E::expected_found`). The source
always passes `None` for the expected set inside `combinator.rs`, which we
render as the empty list. -/
def Err.expectedFound {Tok : Type} (expected : List (Option Tok)) (found : Option Tok)
    (span : Span) : Err Tok :=
  ⟨expected, found, span⟩

/-- Modelled from the spec: the merge operation of the error capability is
a structural merge of the expected-token sets. -/
def Err.merge {Tok : Type} (a b : Err Tok) : Err Tok :=
  ⟨a.expected ++ b.expected, a.found, a.span⟩

/-- A located error: an error value paired with the input position at which
it was raised. -/
structure Located (ε : Type) where
  pos : Nat
  err : ε
deriving DecidableEq, Repr

/-- Attach a position to an error (`Located::at`). -/
def Located.at {ε : Type} (pos : Nat) (err : ε) : Located ε :=
  ⟨pos, err⟩

/-- Modelled from the spec: choice prefers the located error that consumed
more input, falling back to a structural merge on a tie
(`Located::prioritize`). -/
def Located.prioritize {ε : Type} (a b : Located ε) (merge : ε → ε → ε) : Located ε :=
  if b.pos < a.pos then a
  else if a.pos < b.pos then b
  else ⟨a.pos, merge a.err b.err⟩

/-- The universal output value type: unit, one token, a pair, a collected
sequence, or an optional value. -/
inductive Val (Tok : Type) where
  | unit
  | tok (t : Tok)
  | pair (a b : Val Tok)
  | list (vs : List (Val Tok))
  | opt (o : Option (Val Tok))

/-- Push a value into a sequence container (`Container::push` for the
ordered-sequence instance). -/
def Val.push {Tok : Type} : Val Tok → Val Tok → Val Tok
  | .list vs, v => .list (vs ++ [v])
  | v, _ => v

/-- The right fold of `Foldr::go`,
`|(init, end)| init.into_iter().rfold(end, |b, a| folder(a, b))`: the
parser's output is a pair of a sequence and a final value (the Rust types
guarantee this shape; other values pass through unchanged). -/
def Val.foldrVal {Tok : Type} (f : Val Tok → Val Tok → Val Tok) : Val Tok → Val Tok
  | .pair (.list vs) b => vs.foldr f b
  | v => v

/-- The left fold of `Foldl::go`,
`|(head, tail)| tail.into_iter().fold(head, folder)`. -/
def Val.foldlVal {Tok : Type} (f : Val Tok → Val Tok → Val Tok) : Val Tok → Val Tok
  | .pair a (.list vs) => vs.foldl f a
  | v => v

/-- The input reference: token list, cursor offset, the user-supplied
mutable state (`inp.state()`, monomorphised to `Nat` like the output types
are monomorphised to `Val`), and the secondary errors emitted by
`RecoverWith` (`inp.emit`). Checkpoints are offsets. -/
structure Inp (Tok : Type) where
  toks : List Tok
  off : Nat
  state : Nat
  emitted : List (Err Tok)
deriving DecidableEq, Repr

/-- Rewind the cursor to a previously saved checkpoint. Only the offset is
restored; emitted errors are not transactional. -/
def Inp.rewind {Tok : Type} (inp : Inp Tok) (checkpoint : Nat) : Inp Tok :=
  { inp with off := checkpoint }

/-- Advance one token: return the updated input, the new offset, and the
token read, or the unchanged input, the unchanged offset, and `none` at end
of input (`InputRef::next`). -/
def Inp.next {Tok : Type} (inp : Inp Tok) : Inp Tok × Nat × Option Tok :=
  match inp.toks[inp.off]? with
  | some t => ({ inp with off := inp.off + 1 }, inp.off + 1, some t)
  | none => (inp, inp.off, none)

/-- The borrowed sub-slice between two checkpoints (`inp.slice`). -/
def Inp.slice {Tok : Type} (inp : Inp Tok) (before after : Nat) : List Tok :=
  (inp.toks.drop before).take (after - before)

/-- Record a secondary (non-fatal) error (`inp.emit`). -/
def Inp.pushErr {Tok : Type} (inp : Inp Tok) (e : Err Tok) : Inp Tok :=
  { inp with emitted := inp.emitted ++ [e] }

/-- The two execution strategies: `Check` validates without materialising
output, `Emit` materialises output. -/
inductive Mode where
  | check
  | emit
deriving DecidableEq, Repr

/-- The mode-shaped output type `M::Output<T>`: `Unit` under `Check`, a
real value under `Emit`. -/
@[reducible]
def MOut (Tok : Type) : Mode → Type
  | .check => Unit
  | .emit => Val Tok

/-- `M::bind`: construct an output value only in `Emit` mode. -/
def Mode.bindV {Tok : Type} : (m : Mode) → (Unit → Val Tok) → MOut Tok m
  | .check, _ => ()
  | .emit, f => f ()

/-- `M::map`: transform a mode-shaped output; a no-op in `Check` mode. -/
def Mode.mapV {Tok : Type} : (m : Mode) → MOut Tok m → (Val Tok → Val Tok) → MOut Tok m
  | .check, o, _ => o
  | .emit, v, f => f v

/-- `M::combine`: combine two mode-shaped outputs. -/
def Mode.combineV {Tok : Type} :
    (m : Mode) → MOut Tok m → MOut Tok m → (Val Tok → Val Tok → Val Tok) → MOut Tok m
  | .check, _, _, _ => ()
  | .emit, a, b, f => f a b

/-- The accumulation idiom of the repetition combinators,
`output = M::map(output, |mut output| { M::map(out, |out| output.push(out)); output })`:
push the item into the container, both mode-shaped. -/
def Mode.push {Tok : Type} (m : Mode) (acc item : MOut Tok m) : MOut Tok m :=
  Mode.combineV m acc item Val.push

/-- `M::bind` with a closure that reads and writes the user state, as in
`MapWithState::go`: `Check`'s `bind` discards the closure without calling
it, so the mapper runs — and the state is updated — only in `Emit`
mode. -/
def Mode.bindWithState {Tok : Type} :
    (m : Mode) → Inp Tok → (Nat → Val Tok × Nat) → MOut Tok m × Inp Tok
  | .check, inp, _ => ((), inp)
  | .emit, inp, f => ((f inp.state).1, { inp with state := (f inp.state).2 })

/-- `PResult<M, O, E>`: a mode-shaped output or a located error. -/
abbrev PResult (Tok : Type) (m : Mode) := Except (Located (Err Tok)) (MOut Tok m)

/-- The combinator algebra of `combinator.rs`, monomorphised over `Val`.
`prim` is the one leaf: modelled from the spec's token-classification
capability, it consumes a single token and succeeds iff the predicate
accepts it (the `filter` primitive the engine's callers build leaves
from). The remaining thirty constructors are the thirty combinator
structs with a `go` method in the source file, one each; `thenWith`
carries the parser-constructing continuation, and the `WithState`
combinators carry explicit state transformers in place of `&mut S`
closures. -/
inductive Comb (Tok : Type) where
  | prim (p : Tok → Bool)
  | mapSlice (a : Comb Tok) (f : List Tok → Val Tok)
  | filter (a : Comb Tok) (f : Val Tok → Bool)
  | map (a : Comb Tok) (f : Val Tok → Val Tok)
  | mapWithSpan (a : Comb Tok) (f : Val Tok → Span → Val Tok)
  | mapWithState (a : Comb Tok) (f : Val Tok → Span → Nat → Val Tok × Nat)
  | tryMap (a : Comb Tok) (f : Val Tok → Span → Except (Err Tok) (Val Tok))
  | tryMapWithState (a : Comb Tok) (f : Val Tok → Span → Nat → Except (Err Tok) (Val Tok) × Nat)
  | to (a : Comb Tok) (v : Val Tok)
  | then_ (a b : Comb Tok)
  | ignoreThen (a b : Comb Tok)
  | thenIgnore (a b : Comb Tok)
  | thenWith (a : Comb Tok) (k : Val Tok → Comb Tok)
  | delimitedBy (a open_ close_ : Comb Tok)
  | paddedBy (a pad : Comb Tok)
  | or (a b : Comb Tok)
  | recoverWith (a fallback : Comb Tok)
  | orNot (a : Comb Tok)
  | not (a : Comb Tok)
  | andIs (a b : Comb Tok)
  | repeated (a : Comb Tok) (atLeast : Nat) (atMost : Option Nat)
  | separatedBy (a sep : Comb Tok) (atLeast : Nat) (atMost : Option Nat)
      (allowLeading allowTrailing : Bool)
  | repeatedExactly (a : Comb Tok) (n : Nat)
  | separatedByExactly (a sep : Comb Tok) (n : Nat) (allowLeading allowTrailing : Bool)
  | foldr (a : Comb Tok) (f : Val Tok → Val Tok → Val Tok)
  | foldl (a : Comb Tok) (f : Val Tok → Val Tok → Val Tok)
  | rewind (a : Comb Tok)
  | mapErr (a : Comb Tok) (f : Err Tok → Err Tok)
  | mapErrWithSpan (a : Comb Tok) (f : Err Tok → Span → Err Tok)
  | mapErrWithState (a : Comb Tok) (f : Err Tok → Span → Nat → Err Tok × Nat)
  | orElse (a : Comb Tok) (f : Err Tok → Except (Err Tok) (Val Tok))

/-- The semantic type of a parser run in a fixed mode: input reference in,
optionally (if enough fuel) a `PResult` plus the final input reference. -/
abbrev GoFn (Tok : Type) (m : Mode) := Inp Tok → Option (PResult Tok m × Inp Tok)

/-- The loop of `Repeated::go`: save a checkpoint, run the child; on
success accumulate and stop once `at_most` is reached; on failure rewind
the attempt and succeed iff `at_least` was reached. The last argument is
the loop fuel. -/
def repLoop {Tok : Type} (m : Mode) (childGo : GoFn Tok m) (atLeast : Nat)
    (atMost : Option Nat) :
    Nat → MOut Tok m → Inp Tok → Nat → Option (PResult Tok m × Inp Tok)
  | _, _, _, 0 => none
  | count, output, inp, fuel + 1 =>
    let before := inp.off
    match childGo inp with
    | none => none
    | some (.ok out, inp1) =>
      let output1 := Mode.push m output out
      let count1 := count + 1
      match atMost with
      | some mx =>
        if mx ≤ count1 then some (.ok output1, inp1)
        else repLoop m childGo atLeast atMost count1 output1 inp1 fuel
      | none => repLoop m childGo atLeast atMost count1 output1 inp1 fuel
    | some (.error e, inp1) =>
      if atLeast ≤ count then some (.ok output, inp1.rewind before)
      else some (.error e, inp1.rewind before)

/-- Steps 3-5 of `SeparatedBy::go`: attempt a separator in `Check` mode,
then an item in the requested mode. An `.ok` result is the loop `break`
(the caller still runs the trailing-separator step); an `.error` result is
the loop's early `return Err`. -/
def sepLoop {Tok : Type} (m : Mode) (itemGo : GoFn Tok m) (sepGo : GoFn Tok .check)
    (atLeast : Nat) (atMost : Option Nat) :
    Nat → MOut Tok m → Inp Tok → Nat → Option (PResult Tok m × Inp Tok)
  | _, _, _, 0 => none
  | count, output, inp, fuel + 1 =>
    let beforeSep := inp.off
    match sepGo inp with
    | none => none
    | some (.error e, inp1) =>
      if count < atLeast then some (.error e, inp1.rewind beforeSep)
      else some (.ok output, inp1.rewind beforeSep)
    | some (.ok _, inp1) =>
      match itemGo inp1 with
      | none => none
      | some (.ok item, inp2) =>
        let output1 := Mode.push m output item
        let count1 := count + 1
        match atMost with
        | some mx =>
          if mx ≤ count1 then some (.ok output1, inp2)
          else sepLoop m itemGo sepGo atLeast atMost count1 output1 inp2 fuel
        | none => sepLoop m itemGo sepGo atLeast atMost count1 output1 inp2 fuel
      | some (.error e, inp2) =>
        if count < atLeast then some (.error e, inp2.rewind beforeSep)
        else some (.ok output, inp2.rewind beforeSep)

/-- Steps 2-7 of `SeparatedBy::go`: the first item (step 2), the
separator/item loop (steps 3-5, `sepLoop`), and the optional trailing
separator (step 6). Factored out of `go` so the two modes can be related
once. -/
def sepMain {Tok : Type} (m : Mode) (itemGo : GoFn Tok m) (sepGo : GoFn Tok .check)
    (atLeast : Nat) (atMost : Option Nat) (allowTrailing : Bool) (inp : Inp Tok)
    (fuel : Nat) : Option (PResult Tok m × Inp Tok) :=
  let output0 := Mode.bindV m (fun _ => Val.list [])
  let before := inp.off
  match itemGo inp with
  | none => none
  | some (.error e, inpB) =>
    if atLeast = 0 then some (.ok output0, inpB.rewind before)
    else some (.error e, inpB.rewind before)
  | some (.ok item, inpB) =>
    match sepLoop m itemGo sepGo atLeast atMost 1 (Mode.push m output0 item) inpB fuel with
    | none => none
    | some (.error e, inpC) => some (.error e, inpC)
    | some (.ok output2, inpC) =>
      if allowTrailing then
        match sepGo inpC with
        | none => none
        | some (.ok _, inpD) => some (.ok output2, inpD)
        | some (.error _, inpD) => some (.ok output2, inpD.rewind inpC.off)
      else some (.ok output2, inpC)

/-- The loop of `SeparatedByExactly::go`: the fixed buffer of
mode-shaped values (`[MaybeUninit<M::Output<OA>>; N]`) is represented by
its initialised prefix, mode-shaped; a `Check`-mode separator attempt
runs between successive item writes, the trailing-separator attempt runs
inside the `i == N` break, and on a missing separator or failed item the
initialised prefix is dropped and the failure propagates. -/
def sepExLoop {Tok : Type} (m : Mode) (childGo : GoFn Tok m) (sepGo : GoFn Tok .check)
    (allowTrailing : Bool) (n : Nat) :
    Nat → MOut Tok m → Inp Tok → Nat → Option (PResult Tok m × Inp Tok)
  | _, _, _, 0 => none
  | i, output, inp, fuel + 1 =>
    let before := inp.off
    match childGo inp with
    | none => none
    | some (.ok out, inp1) =>
      let output1 := Mode.push m output out
      let i1 := i + 1
      if i1 = n then
        if allowTrailing then
          match sepGo inp1 with
          | none => none
          | some (.ok _, inp2) => some (.ok output1, inp2)
          | some (.error _, inp2) => some (.ok output1, inp2.rewind inp1.off)
        else some (.ok output1, inp1)
      else
        let beforeSep := inp1.off
        match sepGo inp1 with
        | none => none
        | some (.ok _, inp2) => sepExLoop m childGo sepGo allowTrailing n i1 output1 inp2 fuel
        | some (.error e, inp2) => some (.error e, inp2.rewind beforeSep)
    | some (.error e, inp1) =>
      some (.error e, inp1.rewind before)

/-- The loop of `RepeatedExactly::go`: the fixed buffer is represented by
its initialised prefix (writes always target slot `i`, the number of slots
written so far), mode-shaped like the Rust `M::bind(|| C::uninit())`;
`C::take` on the full buffer is the identity on this representation, and
`C::drop_before` releases memory without a value-level effect. -/
def rexLoop {Tok : Type} (m : Mode) (childGo : GoFn Tok m) (n : Nat) :
    Nat → MOut Tok m → Inp Tok → Nat → Option (PResult Tok m × Inp Tok)
  | _, _, _, 0 => none
  | i, output, inp, fuel + 1 =>
    let before := inp.off
    match childGo inp with
    | none => none
    | some (.ok out, inp1) =>
      let output1 := Mode.push m output out
      let i1 := i + 1
      if i1 = n then some (.ok output1, inp1)
      else rexLoop m childGo n i1 output1 inp1 fuel
    | some (.error e, inp1) =>
      some (.error e, inp1.rewind before)

/-- The interpreter: `go fuel c m inp` runs combinator `c` in mode `m` on
input reference `inp`. Each recursive step costs one unit of fuel; `none`
is fuel exhaustion. Every case is a direct transcription of the
corresponding `go` method in `combinator.rs`. -/
def go {Tok : Type} : Nat → Comb Tok → (m : Mode) → Inp Tok → Option (PResult Tok m × Inp Tok)
  | 0, _, _, _ => none
  | fuel + 1, c, m, inp =>
    match c with
    | .prim p =>
      let before := inp.off
      match inp.next with
      | (inp1, at1, some t) =>
        if p t then some (.ok (Mode.bindV m fun _ => .tok t), inp1)
        else some (.error (Located.at at1 (Err.expectedFound [] (some t) ⟨before, inp1.off⟩)), inp1)
      | (inp1, at1, none) =>
        some (.error (Located.at at1 (Err.expectedFound [] none ⟨before, inp1.off⟩)), inp1)
    | .mapSlice a f =>
      let before := inp.off
      match go fuel a .check inp with
      | none => none
      | some (.error e, inp1) => some (.error e, inp1)
      | some (.ok _, inp1) =>
        let after := inp1.off
        some (.ok (Mode.bindV m fun _ => f (inp1.slice before after)), inp1)
    | .filter a f =>
      let before := inp.off
      match go fuel a .emit inp with
      | none => none
      | some (.error e, inp1) => some (.error e, inp1)
      | some (.ok out, inp1) =>
        if f out then some (.ok (Mode.bindV m fun _ => out), inp1)
        else
          some (.error (Located.at inp1.off
            (Err.expectedFound [] none ⟨before, inp1.off⟩)), inp1)
    | .map a f =>
      match go fuel a m inp with
      | none => none
      | some (.error e, inp1) => some (.error e, inp1)
      | some (.ok out, inp1) => some (.ok (Mode.mapV m out f), inp1)
    | .mapWithSpan a f =>
      let before := inp.off
      match go fuel a m inp with
      | none => none
      | some (.error e, inp1) => some (.error e, inp1)
      | some (.ok out, inp1) =>
        some (.ok (Mode.mapV m out (fun v => f v ⟨before, inp1.off⟩)), inp1)
    | .mapWithState a f =>
      let before := inp.off
      match go fuel a .emit inp with
      | none => none
      | some (.error e, inp1) => some (.error e, inp1)
      | some (.ok out, inp1) =>
        let r := Mode.bindWithState m inp1 (fun st => f out ⟨before, inp1.off⟩ st)
        some (.ok r.1, r.2)
    | .tryMap a f =>
      let before := inp.off
      match go fuel a .emit inp with
      | none => none
      | some (.error e, inp1) => some (.error e, inp1)
      | some (.ok out, inp1) =>
        match f out ⟨before, inp1.off⟩ with
        | .ok v => some (.ok (Mode.bindV m fun _ => v), inp1)
        | .error e => some (.error (Located.at inp1.off e), inp1)
    | .tryMapWithState a f =>
      let before := inp.off
      match go fuel a .emit inp with
      | none => none
      | some (.error e, inp1) => some (.error e, inp1)
      | some (.ok out, inp1) =>
        let r := f out ⟨before, inp1.off⟩ inp1.state
        let inp2 := { inp1 with state := r.2 }
        match r.1 with
        | .ok v => some (.ok (Mode.bindV m fun _ => v), inp2)
        | .error e => some (.error (Located.at inp2.off e), inp2)
    | .to a v =>
      match go fuel a .check inp with
      | none => none
      | some (.error e, inp1) => some (.error e, inp1)
      | some (.ok _, inp1) => some (.ok (Mode.bindV m fun _ => v), inp1)
    | .then_ a b =>
      match go fuel a m inp with
      | none => none
      | some (.error e, inp1) => some (.error e, inp1)
      | some (.ok oa, inp1) =>
        match go fuel b m inp1 with
        | none => none
        | some (.error e, inp2) => some (.error e, inp2)
        | some (.ok ob, inp2) => some (.ok (Mode.combineV m oa ob Val.pair), inp2)
    | .ignoreThen a b =>
      match go fuel a .check inp with
      | none => none
      | some (.error e, inp1) => some (.error e, inp1)
      | some (.ok _, inp1) =>
        match go fuel b m inp1 with
        | none => none
        | some (.error e, inp2) => some (.error e, inp2)
        | some (.ok ob, inp2) => some (.ok (Mode.mapV m ob id), inp2)
    | .thenIgnore a b =>
      match go fuel a m inp with
      | none => none
      | some (.error e, inp1) => some (.error e, inp1)
      | some (.ok oa, inp1) =>
        match go fuel b .check inp1 with
        | none => none
        | some (.error e, inp2) => some (.error e, inp2)
        | some (.ok _, inp2) => some (.ok (Mode.mapV m oa id), inp2)
    | .thenWith a k =>
      let before := inp.off
      match go fuel a .emit inp with
      | none => none
      | some (.error e, inp1) => some (.error e, inp1.rewind before)
      | some (.ok out, inp1) =>
        let before2 := inp1.off
        match go fuel (k out) m inp1 with
        | none => none
        | some (.ok out2, inp2) => some (.ok out2, inp2)
        | some (.error e, inp2) => some (.error e, inp2.rewind before2)
    | .delimitedBy a open_ close_ =>
      match go fuel open_ .check inp with
      | none => none
      | some (.error e, inp1) => some (.error e, inp1)
      | some (.ok _, inp1) =>
        match go fuel a m inp1 with
        | none => none
        | some (.error e, inp2) => some (.error e, inp2)
        | some (.ok oa, inp2) =>
          match go fuel close_ .check inp2 with
          | none => none
          | some (.error e, inp3) => some (.error e, inp3)
          | some (.ok _, inp3) => some (.ok oa, inp3)
    | .paddedBy a pad =>
      match go fuel pad .check inp with
      | none => none
      | some (.error e, inp1) => some (.error e, inp1)
      | some (.ok _, inp1) =>
        match go fuel a m inp1 with
        | none => none
        | some (.error e, inp2) => some (.error e, inp2)
        | some (.ok oa, inp2) =>
          match go fuel pad .check inp2 with
          | none => none
          | some (.error e, inp3) => some (.error e, inp3)
          | some (.ok _, inp3) => some (.ok oa, inp3)
    | .or a b =>
      let before := inp.off
      match go fuel a m inp with
      | none => none
      | some (.ok out, inp1) => some (.ok out, inp1)
      | some (.error ea, inp1) =>
        match go fuel b m (inp1.rewind before) with
        | none => none
        | some (.ok out, inp2) => some (.ok out, inp2)
        | some (.error eb, inp2) =>
          some (.error (ea.prioritize eb Err.merge), inp2)
    | .recoverWith a fb =>
      let before := inp.off
      match go fuel a m inp with
      | none => none
      | some (.ok out, inp1) => some (.ok out, inp1)
      | some (.error e, inp1) =>
        match go fuel fb m (inp1.rewind before) with
        | none => none
        | some (.ok out, inp2) => some (.ok out, inp2.pushErr e.err)
        | some (.error _, inp2) => some (.error e, inp2)
    | .orNot a =>
      let before := inp.off
      match go fuel a m inp with
      | none => none
      | some (.ok out, inp1) => some (.ok (Mode.mapV m out (fun v => .opt (some v))), inp1)
      | some (.error _, inp1) =>
        some (.ok (Mode.bindV m fun _ => .opt none), inp1.rewind before)
    | .not a =>
      let before := inp.off
      match go fuel a .check inp with
      | none => none
      | some (r, inp1) =>
        let inp2 := inp1.rewind before
        match r with
        | .ok _ =>
          match inp2.next with
          | (inp3, at1, tk) =>
            some (.error (Located.at at1 (Err.expectedFound [] tk ⟨before, inp3.off⟩)), inp3)
        | .error _ => some (.ok (Mode.bindV m fun _ => .unit), inp2)
    | .andIs a b =>
      let before := inp.off
      match go fuel a m inp with
      | none => none
      | some (.error e, inp1) => some (.error e, inp1.rewind before)
      | some (.ok out, inp1) =>
        let after := inp1.off
        match go fuel b .check (inp1.rewind before) with
        | none => none
        | some (.ok _, inp2) => some (.ok out, inp2.rewind after)
        | some (.error e, inp2) => some (.error e, inp2.rewind before)
    | .repeated a atLeast atMost =>
      repLoop m (go fuel a m) atLeast atMost 0 (Mode.bindV m fun _ => .list []) inp fuel
    | .separatedBy a sep atLeast atMost allowLeading allowTrailing =>
      let step1 : Option (Inp Tok) :=
        if allowLeading then
          match go fuel sep .check inp with
          | none => none
          | some (.ok _, inp1) => some inp1
          | some (.error _, inp1) => some (inp1.rewind inp.off)
        else some inp
      match step1 with
      | none => none
      | some inpA =>
        sepMain m (go fuel a m) (go fuel sep .check) atLeast atMost allowTrailing inpA fuel
    | .repeatedExactly a n =>
      rexLoop m (go fuel a m) n 0 (Mode.bindV m fun _ => .list []) inp fuel
    | .separatedByExactly a sep n allowLeading allowTrailing =>
      let step1 : Option (Inp Tok) :=
        if allowLeading then
          match go fuel sep .check inp with
          | none => none
          | some (.ok _, inp1) => some inp1
          | some (.error _, inp1) => some (inp1.rewind inp.off)
        else some inp
      match step1 with
      | none => none
      | some inpA =>
        sepExLoop m (go fuel a m) (go fuel sep .check) allowTrailing n 0
          (Mode.bindV m fun _ => .list []) inpA fuel
    | .foldr a f =>
      match go fuel a m inp with
      | none => none
      | some (.error e, inp1) => some (.error e, inp1)
      | some (.ok out, inp1) => some (.ok (Mode.mapV m out (Val.foldrVal f)), inp1)
    | .foldl a f =>
      match go fuel a m inp with
      | none => none
      | some (.error e, inp1) => some (.error e, inp1)
      | some (.ok out, inp1) => some (.ok (Mode.mapV m out (Val.foldlVal f)), inp1)
    | .rewind a =>
      let before := inp.off
      match go fuel a m inp with
      | none => none
      | some (.ok out, inp1) => some (.ok out, inp1.rewind before)
      | some (.error e, inp1) => some (.error e, inp1)
    | .mapErr a f =>
      match go fuel a m inp with
      | none => none
      | some (.ok out, inp1) => some (.ok out, inp1)
      | some (.error e, inp1) => some (.error ⟨e.pos, f e.err⟩, inp1)
    | .mapErrWithSpan a f =>
      let start := inp.off
      match go fuel a m inp with
      | none => none
      | some (.ok out, inp1) => some (.ok out, inp1)
      | some (.error e, inp1) => some (.error ⟨e.pos, f e.err ⟨start, inp1.off⟩⟩, inp1)
    | .mapErrWithState a f =>
      let start := inp.off
      match go fuel a m inp with
      | none => none
      | some (.ok out, inp1) => some (.ok out, inp1)
      | some (.error e, inp1) =>
        let r := f e.err ⟨start, inp1.off⟩ inp1.state
        some (.error ⟨e.pos, r.1⟩, { inp1 with state := r.2 })
    | .orElse a f =>
      match go fuel a m inp with
      | none => none
      | some (.ok out, inp1) => some (.ok out, inp1)
      | some (.error e, inp1) =>
        match f e.err with
        | .error e2 => some (.error ⟨e.pos, e2⟩, inp1)
        | .ok out => some (.ok (Mode.bindV m fun _ => out), inp1)

/-- An observable operation on the fixed uninitialised buffer of
`ContainerExactly`: a `write` at a slot index, a `drop_before` releasing
the initialised prefix `[0, i)`, or the final `take`. -/
inductive BufOp where
  | write (i : Nat)
  | dropBefore (i : Nat)
  | take
deriving DecidableEq, Repr

/-- `RepeatedExactly::go` in `Emit` mode, instrumented with the trace of
buffer operations it performs (`C::write`, `C::drop_before`, `C::take`).
The control flow and cursor movement are exactly those of `rexLoop`; the
buffer is the list of written values. -/
def rexTraceLoop {Tok : Type} (childGo : GoFn Tok .emit) (n : Nat) :
    Nat → List (Val Tok) → List BufOp → Inp Tok → Nat →
      Option ((Except (Located (Err Tok)) (List (Val Tok)) × Inp Tok) × List BufOp)
  | _, _, _, _, 0 => none
  | i, buf, tr, inp, fuel + 1 =>
    let before := inp.off
    match childGo inp with
    | none => none
    | some (.ok out, inp1) =>
      let buf1 := buf ++ [out]
      let tr1 := tr ++ [BufOp.write i]
      let i1 := i + 1
      if i1 = n then some ((.ok buf1, inp1), tr1 ++ [BufOp.take])
      else rexTraceLoop childGo n i1 buf1 tr1 inp1 fuel
    | some (.error e, inp1) =>
      some ((.error e, inp1.rewind before), tr ++ [BufOp.dropBefore i])

/-- Does the input stop matching `p` here: either it is exhausted, or its
next token is rejected by `p`? Used to describe inputs made of exactly `k`
matchable units followed by non-matching input. -/
def stopsAt {Tok : Type} (p : Tok → Bool) : List Tok → Bool
  | [] => true
  | t :: _ => !p t

/-- The located error the `prim` leaf produces when it stops at position
`pos` of an input whose remaining tokens are `rest`: at end of input the
cursor stays put, otherwise the offending token is consumed. -/
def primStopErr {Tok : Type} (rest : List Tok) (pos : Nat) : Located (Err Tok) :=
  match rest with
  | t :: _ => ⟨pos + 1, Err.expectedFound [] (some t) ⟨pos, pos + 1⟩⟩
  | [] => ⟨pos, Err.expectedFound [] none ⟨pos, pos⟩⟩

/-- Forget the success payload of a parse result, keeping the error (if
any). -/
def errOf {ε α : Type} : Except ε α → Option ε
  | .ok _ => none
  | .error e => some e

/-- Did the parse succeed? -/
def isOkB {ε α : Type} : Except ε α → Bool
  | .ok _ => true
  | .error _ => false

/-- The mode-independent observables of a run: fuel exhaustion, the
success/failure outcome with the produced error, and the final state of
the input reference (cursor position and emitted errors). Exactly the
output value is forgotten. -/
def obs {Tok : Type} {m : Mode} :
    Option (PResult Tok m × Inp Tok) → Option (Option (Located (Err Tok)) × Inp Tok)
  | none => none
  | some (r, inp) => some (errOf r, inp)

/-- Does the combinator contain no `MapWithState` node? `MapWithState` is
the one combinator whose user closure runs under `M::bind` — only in
`Emit` mode — while it may mutate the user state; every other combinator
performs identical state effects in both modes. -/
def noMapWithState {Tok : Type} : Comb Tok → Prop
  | .prim _ => True
  | .mapSlice a _ => noMapWithState a
  | .filter a _ => noMapWithState a
  | .map a _ => noMapWithState a
  | .mapWithSpan a _ => noMapWithState a
  | .mapWithState _ _ => False
  | .tryMap a _ => noMapWithState a
  | .tryMapWithState a _ => noMapWithState a
  | .to a _ => noMapWithState a
  | .then_ a b => noMapWithState a ∧ noMapWithState b
  | .ignoreThen a b => noMapWithState a ∧ noMapWithState b
  | .thenIgnore a b => noMapWithState a ∧ noMapWithState b
  | .thenWith a k => noMapWithState a ∧ ∀ v, noMapWithState (k v)
  | .delimitedBy a open_ close_ =>
      noMapWithState a ∧ noMapWithState open_ ∧ noMapWithState close_
  | .paddedBy a pad => noMapWithState a ∧ noMapWithState pad
  | .or a b => noMapWithState a ∧ noMapWithState b
  | .recoverWith a fb => noMapWithState a ∧ noMapWithState fb
  | .orNot a => noMapWithState a
  | .not a => noMapWithState a
  | .andIs a b => noMapWithState a ∧ noMapWithState b
  | .repeated a _ _ => noMapWithState a
  | .separatedBy a sep _ _ _ _ => noMapWithState a ∧ noMapWithState sep
  | .repeatedExactly a _ => noMapWithState a
  | .separatedByExactly a sep _ _ _ => noMapWithState a ∧ noMapWithState sep
  | .foldr a _ => noMapWithState a
  | .foldl a _ => noMapWithState a
  | .rewind a => noMapWithState a
  | .mapErr a _ => noMapWithState a
  | .mapErrWithSpan a _ => noMapWithState a
  | .mapErrWithState a _ => noMapWithState a
  | .orElse a _ => noMapWithState a

/-! ## Inverting the observation relation

`MOut Tok .check` is `Unit`, so a check-mode run whose observables agree
with an emit-mode run is determined by them: these three lemmas recover
the check-mode result from the emit-mode one. -/

theorem obs_eq_none {Tok : Type} {x : Option (PResult Tok .check × Inp Tok)}
    {y : Option (PResult Tok .emit × Inp Tok)} (h : obs x = obs y) (hy : y = none) :
    x = none := by
  subst hy
  cases x with
  | none => rfl
  | some r => simp [obs] at h

theorem obs_eq_ok {Tok : Type} {x : Option (PResult Tok .check × Inp Tok)}
    {y : Option (PResult Tok .emit × Inp Tok)} {v : Val Tok} {i : Inp Tok}
    (h : obs x = obs y) (hy : y = some (.ok v, i)) :
    x = some (.ok (), i) := by
  subst hy
  cases x with
  | none => simp [obs] at h
  | some r =>
    obtain ⟨r1, j⟩ := r
    cases r1 with
    | ok u => simp [obs, errOf] at h; subst h; rfl
    | error e => simp [obs, errOf] at h

theorem obs_eq_err {Tok : Type} {x : Option (PResult Tok .check × Inp Tok)}
    {y : Option (PResult Tok .emit × Inp Tok)} {e : Located (Err Tok)} {i : Inp Tok}
    (h : obs x = obs y) (hy : y = some (.error e, i)) :
    x = some (.error e, i) := by
  subst hy
  cases x with
  | none => simp [obs] at h
  | some r =>
    obtain ⟨r1, j⟩ := r
    cases r1 with
    | ok u => simp [obs, errOf] at h
    | error e2 => simp [obs, errOf] at h; obtain ⟨h1, h2⟩ := h; subst h1; subst h2; rfl

/-! ## Mode equivalence of the repetition loops -/

theorem repLoop_obs {Tok : Type} (cC : GoFn Tok .check) (cE : GoFn Tok .emit)
    (hc : ∀ inp, obs (cC inp) = obs (cE inp)) (al : Nat) (am : Option Nat) :
    ∀ (lf count : Nat) (outC : MOut Tok .check) (outE : MOut Tok .emit) (inp : Inp Tok),
      obs (repLoop .check cC al am count outC inp lf) =
        obs (repLoop .emit cE al am count outE inp lf) := by
  intro lf
  induction lf with
  | zero => intro count outC outE inp; rfl
  | succ lf ih =>
    intro count outC outE inp
    cases hy : cE inp with
    | none =>
      have hx := obs_eq_none (hc inp) hy
      simp only [repLoop, hx, hy]
      rfl
    | some r =>
      obtain ⟨r1, inp1⟩ := r
      cases r1 with
      | ok v =>
        have hx := obs_eq_ok (hc inp) hy
        cases am with
        | none => simp only [repLoop, hx, hy]; exact ih _ _ _ _
        | some mx =>
          simp only [repLoop, hx, hy]
          by_cases hmx : mx ≤ count + 1
          · simp [hmx, obs, errOf]
          · simp only [if_neg hmx]; exact ih _ _ _ _
      | error e =>
        have hx := obs_eq_err (hc inp) hy
        simp only [repLoop, hx, hy]
        by_cases hal : al ≤ count <;> simp [hal, obs, errOf]

theorem sepLoop_obs {Tok : Type} (itemC : GoFn Tok .check) (itemE : GoFn Tok .emit)
    (sepGo : GoFn Tok .check)
    (hi : ∀ inp, obs (itemC inp) = obs (itemE inp)) (al : Nat) (am : Option Nat) :
    ∀ (lf count : Nat) (outC : MOut Tok .check) (outE : MOut Tok .emit) (inp : Inp Tok),
      obs (sepLoop .check itemC sepGo al am count outC inp lf) =
        obs (sepLoop .emit itemE sepGo al am count outE inp lf) := by
  intro lf
  induction lf with
  | zero => intro count outC outE inp; rfl
  | succ lf ih =>
    intro count outC outE inp
    cases hs : sepGo inp with
    | none => simp only [sepLoop, hs]; rfl
    | some r =>
      obtain ⟨r1, inp1⟩ := r
      cases r1 with
      | error e =>
        simp only [sepLoop, hs]
        by_cases hal : count < al <;> simp [hal, obs, errOf]
      | ok u =>
        cases hy : itemE inp1 with
        | none =>
          have hx := obs_eq_none (hi inp1) hy
          simp only [sepLoop, hs, hx, hy]
          rfl
        | some r2 =>
          obtain ⟨r21, inp2⟩ := r2
          cases r21 with
          | ok v =>
            have hx := obs_eq_ok (hi inp1) hy
            cases am with
            | none => simp only [sepLoop, hs, hx, hy]; exact ih _ _ _ _
            | some mx =>
              simp only [sepLoop, hs, hx, hy]
              by_cases hmx : mx ≤ count + 1
              · simp [hmx, obs, errOf]
              · simp only [if_neg hmx]; exact ih _ _ _ _
          | error e =>
            have hx := obs_eq_err (hi inp1) hy
            simp only [sepLoop, hs, hx, hy]
            by_cases hal : count < al <;> simp [hal, obs, errOf]

theorem rexLoop_obs {Tok : Type} (cC : GoFn Tok .check) (cE : GoFn Tok .emit)
    (hc : ∀ inp, obs (cC inp) = obs (cE inp)) (n : Nat) :
    ∀ (lf i : Nat) (outC : MOut Tok .check) (outE : MOut Tok .emit) (inp : Inp Tok),
      obs (rexLoop .check cC n i outC inp lf) = obs (rexLoop .emit cE n i outE inp lf) := by
  intro lf
  induction lf with
  | zero => intro i outC outE inp; rfl
  | succ lf ih =>
    intro i outC outE inp
    cases hy : cE inp with
    | none =>
      have hx := obs_eq_none (hc inp) hy
      simp only [rexLoop, hx, hy]
      rfl
    | some r =>
      obtain ⟨r1, inp1⟩ := r
      cases r1 with
      | ok v =>
        have hx := obs_eq_ok (hc inp) hy
        simp only [rexLoop, hx, hy]
        by_cases hn : i + 1 = n
        · simp [hn, obs, errOf]
        · simp only [if_neg hn]; exact ih _ _ _ _
      | error e =>
        have hx := obs_eq_err (hc inp) hy
        simp [rexLoop, hx, hy, obs, errOf]

theorem sepExLoop_obs {Tok : Type} (cC : GoFn Tok .check) (cE : GoFn Tok .emit)
    (sepGo : GoFn Tok .check) (hc : ∀ inp, obs (cC inp) = obs (cE inp)) (trail : Bool)
    (n : Nat) :
    ∀ (lf i : Nat) (outC : MOut Tok .check) (outE : MOut Tok .emit) (inp : Inp Tok),
      obs (sepExLoop .check cC sepGo trail n i outC inp lf) =
        obs (sepExLoop .emit cE sepGo trail n i outE inp lf) := by
  intro lf
  induction lf with
  | zero => intro i outC outE inp; rfl
  | succ lf ih =>
    intro i outC outE inp
    cases hy : cE inp with
    | none =>
      have hx := obs_eq_none (hc inp) hy
      simp only [sepExLoop, hx, hy]
      rfl
    | some r =>
      obtain ⟨r1, inp1⟩ := r
      cases r1 with
      | error e =>
        have hx := obs_eq_err (hc inp) hy
        simp [sepExLoop, hx, hy, obs, errOf]
      | ok v =>
        have hx := obs_eq_ok (hc inp) hy
        by_cases hn : i + 1 = n
        · simp only [sepExLoop, hx, hy, if_pos hn]
          cases trail with
          | false => simp [obs, errOf]
          | true =>
            cases hs : sepGo inp1 with
            | none => simp only [hs, if_true]; rfl
            | some rs =>
              obtain ⟨rs1, inp2⟩ := rs
              cases rs1 <;> simp [hs, obs, errOf]
        · simp only [sepExLoop, hx, hy, if_neg hn]
          cases hs : sepGo inp1 with
          | none => simp only [hs]; rfl
          | some rs =>
            obtain ⟨rs1, inp2⟩ := rs
            cases rs1 with
            | ok u => simp only [hs]; exact ih _ _ _ _
            | error e => simp [hs, obs, errOf]

theorem sepMain_obs {Tok : Type} (itemC : GoFn Tok .check) (itemE : GoFn Tok .emit)
    (sepGo : GoFn Tok .check)
    (hi : ∀ inp, obs (itemC inp) = obs (itemE inp)) (al : Nat) (am : Option Nat)
    (trail : Bool) (inp : Inp Tok) (fuel : Nat) :
    obs (sepMain .check itemC sepGo al am trail inp fuel) =
      obs (sepMain .emit itemE sepGo al am trail inp fuel) := by
  cases hy : itemE inp with
  | none =>
    have hx := obs_eq_none (hi inp) hy
    simp only [sepMain, hx, hy]
    rfl
  | some r =>
    obtain ⟨r1, inpB⟩ := r
    cases r1 with
    | error e =>
      have hx := obs_eq_err (hi inp) hy
      simp only [sepMain, hx, hy]
      by_cases hal : al = 0 <;> simp [hal, obs, errOf]
    | ok item =>
      have hx := obs_eq_ok (hi inp) hy
      simp only [sepMain, hx, hy]
      have hloop := sepLoop_obs itemC itemE sepGo hi al am fuel 1 (Mode.push .check () ())
        (Mode.push .emit (Mode.bindV .emit fun _ => Val.list []) item) inpB
      cases hyl : sepLoop .emit itemE sepGo al am 1
          (Mode.push .emit (Mode.bindV .emit fun _ => Val.list []) item) inpB fuel with
      | none =>
        have hxl := obs_eq_none hloop hyl
        simp only [hxl, hyl]
        rfl
      | some rl =>
        obtain ⟨rl1, inpC⟩ := rl
        cases rl1 with
        | error e =>
          have hxl := obs_eq_err hloop hyl
          simp [hxl, hyl, obs, errOf]
        | ok output2 =>
          have hxl := obs_eq_ok hloop hyl
          simp only [hxl, hyl]
          cases trail with
          | false => simp [obs, errOf]
          | true =>
            cases hs : sepGo inpC with
            | none => simp only [hs]; rfl
            | some rs =>
              obtain ⟨rs1, inpD⟩ := rs
              cases rs1 <;> simp [hs, obs, errOf]

/-! ## C1: mode equivalence of the algebra -/

/-- C1 counterexample: `MapWithState` breaks the mode-equivalence
invariant. Its mapper runs inside `M::bind`, so only in `Emit` mode, and
it may mutate the user state; `TryMapWithState` calls its mapper
unconditionally, so its outcome may read that state. On the combinator
`then_(mapWithState(prim, set state to 1), tryMapWithState(prim, fail
unless state = 1))` over the input `[1, 1]` with initial state 0, the
`Check` run fails while the `Emit` run succeeds — the success/failure
outcome differs between the modes. -/
theorem mode_equivalence_counterexample :
    ((go 10 (Comb.then_
          (Comb.mapWithState (Comb.prim fun _ => true) (fun v _ _ => (v, 1)))
          (Comb.tryMapWithState (Comb.prim fun _ => true)
            (fun v _ st =>
              (if st = 1 then Except.ok v
                else Except.error (Err.expectedFound [] none ⟨0, 0⟩), st))))
        Mode.check (⟨[1, 1], 0, 0, []⟩ : Inp Nat)).map (fun r => isOkB r.1) = some false)
      ∧ ((go 10 (Comb.then_
          (Comb.mapWithState (Comb.prim fun _ => true) (fun v _ _ => (v, 1)))
          (Comb.tryMapWithState (Comb.prim fun _ => true)
            (fun v _ st =>
              (if st = 1 then Except.ok v
                else Except.error (Err.expectedFound [] none ⟨0, 0⟩), st))))
        Mode.emit (⟨[1, 1], 0, 0, []⟩ : Inp Nat)).map (fun r => isOkB r.1) = some true) :=
  ⟨rfl, rfl⟩

/-- C1 (amended): for every combinator of the algebra containing no
`MapWithState` node, every input, and every fuel bound, running `go` in
`Check` mode and in `Emit` mode from the same starting cursor position
and state yields the same observables: divergence iff divergence, the
same success/failure outcome with the same located error, and the same
final input reference (cursor position, user state and emitted errors);
the two runs differ only in the constructed output value, which `obs`
forgets. This covers in particular the combinators that force a child
mode (`Filter`, `TryMap`, `TryMapWithState`, `MapSlice`, `To`,
`ThenWith`) and the repetition loops running their child in the outer
mode. `MapWithState` must be excluded: its mapper runs under `M::bind`,
hence only in `Emit` mode, so a state-mutating mapper makes a downstream
state-reading combinator behave differently across the two modes (see
the counterexample). -/
theorem mode_equivalence {Tok : Type} (fuel : Nat) :
    ∀ (c : Comb Tok) (inp : Inp Tok), noMapWithState c →
      obs (go fuel c .check inp) = obs (go fuel c .emit inp) := by
  induction fuel with
  | zero => intro c inp _; rfl
  | succ fuel ih =>
    intro c inp hns
    cases c with
    | prim p =>
      simp only [go]
      rcases hn : inp.next with ⟨inp1, at1, tk⟩
      cases tk with
      | none => simp [hn, obs, errOf]
      | some t =>
        simp only [hn]
        by_cases hp : p t <;> simp [hp, obs, errOf]
    | mapSlice a f =>
      simp only [go]
      cases hx : go fuel a .check inp with
      | none => simp only [hx]; rfl
      | some r =>
        obtain ⟨r1, inp1⟩ := r
        cases r1 <;> simp [hx, obs, errOf]
    | filter a f =>
      simp only [go]
      cases hy : go fuel a .emit inp with
      | none => simp only [hy]; rfl
      | some r =>
        obtain ⟨r1, inp1⟩ := r
        cases r1 with
        | ok v => by_cases hf : f v <;> simp [hy, hf, obs, errOf]
        | error e => simp [hy, obs, errOf]
    | map a f =>
      have h := ih a inp hns
      simp only [go]
      cases hy : go fuel a .emit inp with
      | none => simp only [hy, obs_eq_none h hy]; rfl
      | some r =>
        obtain ⟨r1, inp1⟩ := r
        cases r1 with
        | ok v => simp [hy, obs_eq_ok h hy, obs, errOf]
        | error e => simp [hy, obs_eq_err h hy, obs, errOf]
    | mapWithSpan a f =>
      have h := ih a inp hns
      simp only [go]
      cases hy : go fuel a .emit inp with
      | none => simp only [hy, obs_eq_none h hy]; rfl
      | some r =>
        obtain ⟨r1, inp1⟩ := r
        cases r1 with
        | ok v => simp [hy, obs_eq_ok h hy, obs, errOf]
        | error e => simp [hy, obs_eq_err h hy, obs, errOf]
    | mapWithState a f => exact False.elim hns
    | tryMap a f =>
      simp only [go]
      cases hy : go fuel a .emit inp with
      | none => simp only [hy]; rfl
      | some r =>
        obtain ⟨r1, inp1⟩ := r
        cases r1 with
        | ok v => cases hfv : f v ⟨inp.off, inp1.off⟩ <;> simp [hy, hfv, obs, errOf]
        | error e => simp [hy, obs, errOf]
    | tryMapWithState a f =>
      simp only [go]
      cases hy : go fuel a .emit inp with
      | none => simp only [hy]; rfl
      | some r =>
        obtain ⟨r1, inp1⟩ := r
        cases r1 with
        | ok v =>
          cases hfv : (f v ⟨inp.off, inp1.off⟩ inp1.state).1 <;> simp [hy, hfv, obs, errOf]
        | error e => simp [hy, obs, errOf]
    | «to» a v =>
      simp only [go]
      cases hx : go fuel a .check inp with
      | none => simp only [hx]; rfl
      | some r =>
        obtain ⟨r1, inp1⟩ := r
        cases r1 <;> simp [hx, obs, errOf]
    | then_ a b =>
      have hab : noMapWithState a ∧ noMapWithState b := hns
      have ha := ih a inp hab.1
      simp only [go]
      cases hy : go fuel a .emit inp with
      | none => simp only [hy, obs_eq_none ha hy]; rfl
      | some r =>
        obtain ⟨r1, inp1⟩ := r
        cases r1 with
        | error e => simp [hy, obs_eq_err ha hy, obs, errOf]
        | ok v =>
          have hb := ih b inp1 hab.2
          cases hy2 : go fuel b .emit inp1 with
          | none => simp only [hy, obs_eq_ok ha hy, hy2, obs_eq_none hb hy2]; rfl
          | some r2 =>
            obtain ⟨r21, inp2⟩ := r2
            cases r21 with
            | error e => simp [hy, obs_eq_ok ha hy, hy2, obs_eq_err hb hy2, obs, errOf]
            | ok v2 => simp [hy, obs_eq_ok ha hy, hy2, obs_eq_ok hb hy2, obs, errOf]
    | ignoreThen a b =>
      have hab : noMapWithState a ∧ noMapWithState b := hns
      simp only [go]
      cases hx : go fuel a .check inp with
      | none => simp only [hx]; rfl
      | some r =>
        obtain ⟨r1, inp1⟩ := r
        cases r1 with
        | error e => simp [hx, obs, errOf]
        | ok u =>
          have hb := ih b inp1 hab.2
          cases hy2 : go fuel b .emit inp1 with
          | none => simp only [hx, hy2, obs_eq_none hb hy2]; rfl
          | some r2 =>
            obtain ⟨r21, inp2⟩ := r2
            cases r21 with
            | error e => simp [hx, hy2, obs_eq_err hb hy2, obs, errOf]
            | ok v2 => simp [hx, hy2, obs_eq_ok hb hy2, obs, errOf]
    | thenIgnore a b =>
      have hab : noMapWithState a ∧ noMapWithState b := hns
      have ha := ih a inp hab.1
      simp only [go]
      cases hy : go fuel a .emit inp with
      | none => simp only [hy, obs_eq_none ha hy]; rfl
      | some r =>
        obtain ⟨r1, inp1⟩ := r
        cases r1 with
        | error e => simp [hy, obs_eq_err ha hy, obs, errOf]
        | ok v =>
          cases hx2 : go fuel b .check inp1 with
          | none => simp only [hy, obs_eq_ok ha hy, hx2]; rfl
          | some r2 =>
            obtain ⟨r21, inp2⟩ := r2
            cases r21 <;> simp [hy, obs_eq_ok ha hy, hx2, obs, errOf]
    | thenWith a k =>
      have hak : noMapWithState a ∧ ∀ v, noMapWithState (k v) := hns
      simp only [go]
      cases hy : go fuel a .emit inp with
      | none => simp only [hy]; rfl
      | some r =>
        obtain ⟨r1, inp1⟩ := r
        cases r1 with
        | error e => simp [hy, obs, errOf]
        | ok v =>
          have hk := ih (k v) inp1 (hak.2 v)
          cases hy2 : go fuel (k v) .emit inp1 with
          | none => simp only [hy, hy2, obs_eq_none hk hy2]; rfl
          | some r2 =>
            obtain ⟨r21, inp2⟩ := r2
            cases r21 with
            | error e => simp [hy, hy2, obs_eq_err hk hy2, obs, errOf]
            | ok v2 => simp [hy, hy2, obs_eq_ok hk hy2, obs, errOf]
    | delimitedBy a op cl =>
      have habc : noMapWithState a ∧ noMapWithState op ∧ noMapWithState cl := hns
      simp only [go]
      cases hx : go fuel op .check inp with
      | none => simp only [hx]; rfl
      | some r =>
        obtain ⟨r1, inp1⟩ := r
        cases r1 with
        | error e => simp [hx, obs, errOf]
        | ok u =>
          have ha := ih a inp1 habc.1
          cases hy2 : go fuel a .emit inp1 with
          | none => simp only [hx, hy2, obs_eq_none ha hy2]; rfl
          | some r2 =>
            obtain ⟨r21, inp2⟩ := r2
            cases r21 with
            | error e => simp [hx, hy2, obs_eq_err ha hy2, obs, errOf]
            | ok v =>
              cases hx3 : go fuel cl .check inp2 with
              | none => simp only [hx, hy2, obs_eq_ok ha hy2, hx3]; rfl
              | some r3 =>
                obtain ⟨r31, inp3⟩ := r3
                cases r31 <;> simp [hx, hy2, obs_eq_ok ha hy2, hx3, obs, errOf]
    | paddedBy a pad =>
      have hab : noMapWithState a ∧ noMapWithState pad := hns
      simp only [go]
      cases hx : go fuel pad .check inp with
      | none => simp only [hx]; rfl
      | some r =>
        obtain ⟨r1, inp1⟩ := r
        cases r1 with
        | error e => simp [hx, obs, errOf]
        | ok u =>
          have ha := ih a inp1 hab.1
          cases hy2 : go fuel a .emit inp1 with
          | none => simp only [hx, hy2, obs_eq_none ha hy2]; rfl
          | some r2 =>
            obtain ⟨r21, inp2⟩ := r2
            cases r21 with
            | error e => simp [hx, hy2, obs_eq_err ha hy2, obs, errOf]
            | ok v =>
              cases hx3 : go fuel pad .check inp2 with
              | none => simp only [hx, hy2, obs_eq_ok ha hy2, hx3]; rfl
              | some r3 =>
                obtain ⟨r31, inp3⟩ := r3
                cases r31 <;> simp [hx, hy2, obs_eq_ok ha hy2, hx3, obs, errOf]
    | or a b =>
      have hab : noMapWithState a ∧ noMapWithState b := hns
      have ha := ih a inp hab.1
      simp only [go]
      cases hy : go fuel a .emit inp with
      | none => simp only [hy, obs_eq_none ha hy]; rfl
      | some r =>
        obtain ⟨r1, inp1⟩ := r
        cases r1 with
        | ok v => simp [hy, obs_eq_ok ha hy, obs, errOf]
        | error ea =>
          have hb := ih b (inp1.rewind inp.off) hab.2
          cases hy2 : go fuel b .emit (inp1.rewind inp.off) with
          | none => simp only [hy, obs_eq_err ha hy, hy2, obs_eq_none hb hy2]; rfl
          | some r2 =>
            obtain ⟨r21, inp2⟩ := r2
            cases r21 with
            | ok v => simp [hy, obs_eq_err ha hy, hy2, obs_eq_ok hb hy2, obs, errOf]
            | error eb => simp [hy, obs_eq_err ha hy, hy2, obs_eq_err hb hy2, obs, errOf]
    | recoverWith a fb =>
      have hab : noMapWithState a ∧ noMapWithState fb := hns
      have ha := ih a inp hab.1
      simp only [go]
      cases hy : go fuel a .emit inp with
      | none => simp only [hy, obs_eq_none ha hy]; rfl
      | some r =>
        obtain ⟨r1, inp1⟩ := r
        cases r1 with
        | ok v => simp [hy, obs_eq_ok ha hy, obs, errOf]
        | error e =>
          have hb := ih fb (inp1.rewind inp.off) hab.2
          cases hy2 : go fuel fb .emit (inp1.rewind inp.off) with
          | none => simp only [hy, obs_eq_err ha hy, hy2, obs_eq_none hb hy2]; rfl
          | some r2 =>
            obtain ⟨r21, inp2⟩ := r2
            cases r21 with
            | ok v => simp [hy, obs_eq_err ha hy, hy2, obs_eq_ok hb hy2, obs, errOf]
            | error e2 => simp [hy, obs_eq_err ha hy, hy2, obs_eq_err hb hy2, obs, errOf]
    | orNot a =>
      have ha := ih a inp hns
      simp only [go]
      cases hy : go fuel a .emit inp with
      | none => simp only [hy, obs_eq_none ha hy]; rfl
      | some r =>
        obtain ⟨r1, inp1⟩ := r
        cases r1 with
        | ok v => simp [hy, obs_eq_ok ha hy, obs, errOf]
        | error e => simp [hy, obs_eq_err ha hy, obs, errOf]
    | not a =>
      simp only [go]
      cases hx : go fuel a .check inp with
      | none => simp only [hx]; rfl
      | some r =>
        obtain ⟨r1, inp1⟩ := r
        cases r1 with
        | ok u =>
          rcases hn : (inp1.rewind inp.off).next with ⟨inp3, at1, tk⟩
          simp [hx, hn, obs, errOf]
        | error e => simp [hx, obs, errOf]
    | andIs a b =>
      have hab : noMapWithState a ∧ noMapWithState b := hns
      have ha := ih a inp hab.1
      simp only [go]
      cases hy : go fuel a .emit inp with
      | none => simp only [hy, obs_eq_none ha hy]; rfl
      | some r =>
        obtain ⟨r1, inp1⟩ := r
        cases r1 with
        | error e => simp [hy, obs_eq_err ha hy, obs, errOf]
        | ok v =>
          cases hx2 : go fuel b .check (inp1.rewind inp.off) with
          | none => simp only [hy, obs_eq_ok ha hy, hx2]; rfl
          | some r2 =>
            obtain ⟨r21, inp2⟩ := r2
            cases r21 <;> simp [hy, obs_eq_ok ha hy, hx2, obs, errOf]
    | repeated a al am =>
      simp only [go]
      exact repLoop_obs (go fuel a .check) (go fuel a .emit) (fun i => ih a i hns) al am
        fuel 0 (Mode.bindV .check fun _ => Val.list []) (Mode.bindV .emit fun _ => Val.list []) inp
    | separatedBy a sep al am lead trail =>
      have hab : noMapWithState a ∧ noMapWithState sep := hns
      simp only [go]
      cases lead with
      | false =>
        simp only [Bool.false_eq_true, if_false]
        exact sepMain_obs (go fuel a .check) (go fuel a .emit) (go fuel sep .check)
          (fun i => ih a i hab.1) al am trail inp fuel
      | true =>
        simp only [if_true]
        cases hs : go fuel sep .check inp with
        | none => simp only [hs]; rfl
        | some r =>
          obtain ⟨r1, inp1⟩ := r
          cases r1 with
          | ok u =>
            simp only [hs]
            exact sepMain_obs (go fuel a .check) (go fuel a .emit) (go fuel sep .check)
              (fun i => ih a i hab.1) al am trail inp1 fuel
          | error e =>
            simp only [hs]
            exact sepMain_obs (go fuel a .check) (go fuel a .emit) (go fuel sep .check)
              (fun i => ih a i hab.1) al am trail (inp1.rewind inp.off) fuel
    | repeatedExactly a n =>
      simp only [go]
      exact rexLoop_obs (go fuel a .check) (go fuel a .emit) (fun i => ih a i hns) n
        fuel 0 (Mode.bindV .check fun _ => Val.list []) (Mode.bindV .emit fun _ => Val.list []) inp
    | separatedByExactly a sep n lead trail =>
      have hab : noMapWithState a ∧ noMapWithState sep := hns
      simp only [go]
      cases lead with
      | false =>
        simp only [Bool.false_eq_true, if_false]
        exact sepExLoop_obs (go fuel a .check) (go fuel a .emit) (go fuel sep .check)
          (fun i => ih a i hab.1) trail n fuel 0 (Mode.bindV .check fun _ => Val.list [])
          (Mode.bindV .emit fun _ => Val.list []) inp
      | true =>
        simp only [if_true]
        cases hs : go fuel sep .check inp with
        | none => simp only [hs]; rfl
        | some r =>
          obtain ⟨r1, inp1⟩ := r
          cases r1 with
          | ok u =>
            simp only [hs]
            exact sepExLoop_obs (go fuel a .check) (go fuel a .emit) (go fuel sep .check)
              (fun i => ih a i hab.1) trail n fuel 0 (Mode.bindV .check fun _ => Val.list [])
              (Mode.bindV .emit fun _ => Val.list []) inp1
          | error e =>
            simp only [hs]
            exact sepExLoop_obs (go fuel a .check) (go fuel a .emit) (go fuel sep .check)
              (fun i => ih a i hab.1) trail n fuel 0 (Mode.bindV .check fun _ => Val.list [])
              (Mode.bindV .emit fun _ => Val.list []) (inp1.rewind inp.off)
    | foldr a f =>
      have ha := ih a inp hns
      simp only [go]
      cases hy : go fuel a .emit inp with
      | none => simp only [hy, obs_eq_none ha hy]; rfl
      | some r =>
        obtain ⟨r1, inp1⟩ := r
        cases r1 with
        | ok v => simp [hy, obs_eq_ok ha hy, obs, errOf]
        | error e => simp [hy, obs_eq_err ha hy, obs, errOf]
    | foldl a f =>
      have ha := ih a inp hns
      simp only [go]
      cases hy : go fuel a .emit inp with
      | none => simp only [hy, obs_eq_none ha hy]; rfl
      | some r =>
        obtain ⟨r1, inp1⟩ := r
        cases r1 with
        | ok v => simp [hy, obs_eq_ok ha hy, obs, errOf]
        | error e => simp [hy, obs_eq_err ha hy, obs, errOf]
    | rewind a =>
      have ha := ih a inp hns
      simp only [go]
      cases hy : go fuel a .emit inp with
      | none => simp only [hy, obs_eq_none ha hy]; rfl
      | some r =>
        obtain ⟨r1, inp1⟩ := r
        cases r1 with
        | ok v => simp [hy, obs_eq_ok ha hy, obs, errOf]
        | error e => simp [hy, obs_eq_err ha hy, obs, errOf]
    | mapErr a f =>
      have ha := ih a inp hns
      simp only [go]
      cases hy : go fuel a .emit inp with
      | none => simp only [hy, obs_eq_none ha hy]; rfl
      | some r =>
        obtain ⟨r1, inp1⟩ := r
        cases r1 with
        | ok v => simp [hy, obs_eq_ok ha hy, obs, errOf]
        | error e => simp [hy, obs_eq_err ha hy, obs, errOf]
    | mapErrWithSpan a f =>
      have ha := ih a inp hns
      simp only [go]
      cases hy : go fuel a .emit inp with
      | none => simp only [hy, obs_eq_none ha hy]; rfl
      | some r =>
        obtain ⟨r1, inp1⟩ := r
        cases r1 with
        | ok v => simp [hy, obs_eq_ok ha hy, obs, errOf]
        | error e => simp [hy, obs_eq_err ha hy, obs, errOf]
    | mapErrWithState a f =>
      have ha := ih a inp hns
      simp only [go]
      cases hy : go fuel a .emit inp with
      | none => simp only [hy, obs_eq_none ha hy]; rfl
      | some r =>
        obtain ⟨r1, inp1⟩ := r
        cases r1 with
        | ok v => simp [hy, obs_eq_ok ha hy, obs, errOf]
        | error e => simp [hy, obs_eq_err ha hy, obs, errOf]
    | orElse a f =>
      have ha := ih a inp hns
      simp only [go]
      cases hy : go fuel a .emit inp with
      | none => simp only [hy, obs_eq_none ha hy]; rfl
      | some r =>
        obtain ⟨r1, inp1⟩ := r
        cases r1 with
        | ok v => simp [hy, obs_eq_ok ha hy, obs, errOf]
        | error e =>
          cases hf : f e.err <;> simp [hy, obs_eq_err ha hy, hf, obs, errOf]

/-- Witness for C1: the amended equivalence applied to a concrete
`MapWithState`-free combinator — a bounded repetition of a filtered
leaf, exercising the `Emit`-forcing `Filter` — on a concrete input. -/
theorem mode_equivalence_witness :
    obs (go 6 (Comb.repeated (Comb.filter (Comb.prim fun t : Nat => t == 5) (fun _ => true))
        0 (some 2)) Mode.check ⟨[5, 5, 5], 0, 0, []⟩) =
      obs (go 6 (Comb.repeated (Comb.filter (Comb.prim fun t : Nat => t == 5) (fun _ => true))
        0 (some 2)) Mode.emit ⟨[5, 5, 5], 0, 0, []⟩) :=
  mode_equivalence 6
    (Comb.repeated (Comb.filter (Comb.prim fun t => t == 5) (fun _ => true)) 0 (some 2))
    ⟨[5, 5, 5], 0, 0, []⟩ (by simp [noMapWithState])

/-! ## C8 and C10: `OrNot` and `Rewind` -/

/-- C8: for every child parser, input and mode, `OrNot` never returns an
error: if the child succeeds its output is wrapped in `Some` and its
consumption kept; if the child fails the cursor is rewound to the
checkpoint saved before the attempt (no input is consumed) and `OrNot`
succeeds with output `None`. Divergence of the child is the only way not
to get a success. -/
theorem orNot_characterization {Tok : Type} (fuel : Nat) (a : Comb Tok) (m : Mode)
    (inp : Inp Tok) :
    go (fuel + 1) (.orNot a) m inp =
      (go fuel a m inp).map (fun r =>
        match r with
        | (.ok out, inp1) => (.ok (Mode.mapV m out (fun v => .opt (some v))), inp1)
        | (.error _, inp1) => (.ok (Mode.bindV m fun _ => .opt none), inp1.rewind inp.off)) := by
  cases h : go fuel a m inp with
  | none => simp [go, h]
  | some r =>
    obtain ⟨r1, inp1⟩ := r
    cases r1 <;> simp [go, h]

/-- C10: for every child parser, input and mode, `Rewind` restores the
cursor to the checkpoint saved at entry only on success (while returning
the child's output); on failure the child's error is returned without any
rewind, leaving the cursor wherever the child's failed run left it. -/
theorem rewind_characterization {Tok : Type} (fuel : Nat) (a : Comb Tok) (m : Mode)
    (inp : Inp Tok) :
    go (fuel + 1) (.rewind a) m inp =
      (go fuel a m inp).map (fun r =>
        match r with
        | (.ok out, inp1) => (.ok out, inp1.rewind inp.off)
        | (.error e, inp1) => (.error e, inp1)) := by
  cases h : go fuel a m inp with
  | none => simp [go, h]
  | some r =>
    obtain ⟨r1, inp1⟩ := r
    cases r1 <;> simp [go, h]

/-! ## C6: `SeparatedBy` hitting `at_most` retains the separator -/

/-- C6: in the main loop of `SeparatedBy::go`, whenever a separator
succeeds and then an item succeeds bringing the accumulated count up to
`at_most`, the loop exits successfully at the item's end position: the
cursor is not rewound to the checkpoint saved before the separator, so
the separator's consumption is retained. -/
theorem separatedBy_at_most_exit {Tok : Type} (m : Mode) (itemGo : GoFn Tok m)
    (sepGo : GoFn Tok .check) (al mx count : Nat) (acc : MOut Tok m)
    (inp inp1 inp2 : Inp Tok) (u : MOut Tok .check) (item : MOut Tok m) (fuel : Nat)
    (hsep : sepGo inp = some (.ok u, inp1))
    (hitem : itemGo inp1 = some (.ok item, inp2))
    (hmax : mx ≤ count + 1) :
    sepLoop m itemGo sepGo al (some mx) count acc inp (fuel + 1) =
      some (.ok (Mode.push m acc item), inp2) := by
  simp [sepLoop, hsep, hitem, hmax]

/-- Witness for C6: with item parser `(= 1)`, separator `(= 2)`,
`at_most = 2` and one item already accumulated, the input `[2, 1]` makes
the loop exit at offset 2, keeping the separator consumed. -/
theorem separatedBy_at_most_exit_witness :
    sepLoop Mode.emit (go 3 (Comb.prim fun t => t == 1) Mode.emit)
        (go 3 (Comb.prim fun t => t == 2) Mode.check) 0 (some 2) 1
        (Val.list [Val.tok 1]) ⟨[2, 1], 0, 0, []⟩ 5 =
      some (.ok (Val.list [Val.tok 1, Val.tok 1]), ⟨[2, 1], 2, 0, []⟩) :=
  separatedBy_at_most_exit Mode.emit (go 3 (Comb.prim fun t => t == 1) Mode.emit)
    (go 3 (Comb.prim fun t => t == 2) Mode.check) 0 2 1 (Val.list [Val.tok 1])
    ⟨[2, 1], 0, 0, []⟩ ⟨[2, 1], 1, 0, []⟩ ⟨[2, 1], 2, 0, []⟩ () (Val.tok 1) 4 rfl rfl (by decide)

/-! ## C3: `ThenWith` failure rewinding -/

/-- C3 counterexample: `ThenWith` whose first parser consumes one token
and whose constructed second parser then fails does not rewind to the
original starting checkpoint (offset 0): the run fails with the cursor
left at offset 1, the intermediate checkpoint after the first parser. -/
theorem thenWith_counterexample :
    ((go 5 (Comb.thenWith (Comb.prim fun _ => true) (fun _ => Comb.prim fun _ => false))
        Mode.emit ⟨[1, 2], 0, 0, []⟩).map (fun r => (isOkB r.1, r.2.off)) = some (false, 1))
      ∧ (1 : Nat) ≠ 0 :=
  ⟨rfl, by decide⟩

/-- C3 (amended): `ThenWith` runs its first parser in `Emit` mode; if the
first parser fails, the failure is returned with the cursor rewound to
the checkpoint saved at `ThenWith`'s own entry, but if the first parser
succeeds and the parser constructed from its output fails, the failure is
returned with the cursor rewound only to the intermediate checkpoint
saved after the first parser (the entry checkpoint is shadowed), so the
first parser's consumption remains. -/
theorem thenWith_rewind_behaviour {Tok : Type} (fuel : Nat) (a : Comb Tok)
    (k : Val Tok → Comb Tok) (m : Mode) (inp : Inp Tok) :
    (∀ e inp1, go fuel a .emit inp = some (.error e, inp1) →
      go (fuel + 1) (.thenWith a k) m inp = some (.error e, inp1.rewind inp.off)) ∧
    (∀ v inp1 e inp2, go fuel a .emit inp = some (.ok v, inp1) →
      go fuel (k v) m inp1 = some (.error e, inp2) →
      go (fuel + 1) (.thenWith a k) m inp = some (.error e, inp2.rewind inp1.off)) := by
  constructor
  · intro e inp1 h
    simp [go, h]
  · intro v inp1 e inp2 h1 h2
    simp [go, h1, h2]

/-- Witness for C3: the amended behaviour at the counterexample input —
the second-stage failure is reported with the cursor at offset 1. -/
theorem thenWith_rewind_behaviour_witness :
    go 5 (Comb.thenWith (Comb.prim fun _ => true) (fun _ => Comb.prim fun _ => false))
        Mode.emit ⟨[1, 2], 0, 0, []⟩ =
      some (.error (Located.at 2 (Err.expectedFound [] (some 2) ⟨1, 2⟩)), ⟨[1, 2], 1, 0, []⟩) :=
  (thenWith_rewind_behaviour 4 (Comb.prim fun _ => true) (fun _ => Comb.prim fun _ => false)
    Mode.emit ⟨[1, 2], 0, 0, []⟩).2 (Val.tok 1) ⟨[1, 2], 1, 0, []⟩
    (Located.at 2 (Err.expectedFound [] (some 2) ⟨1, 2⟩)) ⟨[1, 2], 2, 0, []⟩ rfl rfl

/-! ## C5: the position of `Filter`'s predicate-rejection error -/

/-- C5 counterexample: a `Filter` whose child consumes one token and whose
predicate rejects produces a located error at position 1 — the cursor
position after the child's consumption (`last_pos`) — not at the
checkpoint 0 saved before the child ran. -/
theorem filter_error_position_counterexample :
    ((go 3 (Comb.filter (Comb.prim fun _ => true) (fun _ => false)) Mode.emit
        ⟨[7], 0, 0, []⟩).map (fun r => (errOf r.1).map Located.pos) = some (some 1))
      ∧ (1 : Nat) ≠ 0 :=
  ⟨rfl, by decide⟩

/-- C5 (amended): when `Filter`'s child succeeds but the predicate rejects
its output, the located error is raised at the current cursor position
(after the child's consumption, `inp.last_pos()`), while its span covers
from the checkpoint saved before the child ran to that position; the
error value has no expected descriptors and no found token
(`expected_found(None, None, span)`). -/
theorem filter_reject_error {Tok : Type} (fuel : Nat) (a : Comb Tok) (f : Val Tok → Bool)
    (m : Mode) (inp inp1 : Inp Tok) (v : Val Tok)
    (h : go fuel a .emit inp = some (.ok v, inp1)) (hf : f v = false) :
    go (fuel + 1) (.filter a f) m inp =
      some (.error (Located.at inp1.off (Err.expectedFound [] none ⟨inp.off, inp1.off⟩)), inp1) := by
  simp [go, h, hf]

/-- Witness for C5: the amended behaviour at the counterexample input. -/
theorem filter_reject_error_witness :
    go 3 (Comb.filter (Comb.prim fun _ => true) (fun _ => false)) Mode.emit ⟨[7], 0, 0, []⟩ =
      some (.error (Located.at 1 (Err.expectedFound [] none ⟨0, 1⟩)), ⟨[7], 1, 0, []⟩) :=
  filter_reject_error 2 (Comb.prim fun _ => true) (fun _ => false) Mode.emit
    ⟨[7], 0, 0, []⟩ ⟨[7], 1, 0, []⟩ (Val.tok 7) rfl rfl

/-! ## C7: `Not` inverts its child -/

/-- C7 counterexample: when the child of `Not` succeeds, the resulting
located error leaves the cursor at offset 1, not back at the saved
checkpoint 0 — after the rewind, `inp.next()` consumes the reported
token. -/
theorem not_cursor_counterexample :
    ((go 3 (Comb.not (Comb.prim fun _ => true)) Mode.emit ⟨[5], 0, 0, []⟩).map
        (fun r => (isOkB r.1, r.2.off)) = some (false, 1))
      ∧ (1 : Nat) ≠ 0 :=
  ⟨rfl, by decide⟩

/-- C7 (amended): `Not` runs its child in `Check` mode from a saved
checkpoint and rewinds to it afterwards; if the child fails, `Not`
succeeds with unit output and the cursor at the saved checkpoint; if the
child succeeds, `Not` then reads one token with `next()` and returns a
located error reporting that token as unexpectedly found — leaving the
cursor one token past the saved checkpoint (or at the checkpoint when at
end of input), not at the checkpoint itself. -/
theorem not_inverts {Tok : Type} (fuel : Nat) (a : Comb Tok) (m : Mode) (inp : Inp Tok) :
    (∀ u inp1, go fuel a .check inp = some (.ok u, inp1) →
      go (fuel + 1) (.not a) m inp =
        some (.error (Located.at ((inp1.rewind inp.off).next).2.1
            (Err.expectedFound [] ((inp1.rewind inp.off).next).2.2
              ⟨inp.off, ((inp1.rewind inp.off).next).1.off⟩)),
          ((inp1.rewind inp.off).next).1)) ∧
    (∀ e inp1, go fuel a .check inp = some (.error e, inp1) →
      go (fuel + 1) (.not a) m inp = some (.ok (Mode.bindV m fun _ => .unit), inp1.rewind inp.off)) := by
  constructor
  · intro u inp1 h
    rcases hn : (inp1.rewind inp.off).next with ⟨inp2, at1, tk⟩
    simp [go, h, hn]
  · intro e inp1 h
    simp [go, h]

/-- Witness for C7: the amended behaviour at the counterexample input —
the child succeeds, the error reports the found token `5`, and the cursor
ends at offset 1. -/
theorem not_inverts_witness :
    go 3 (Comb.not (Comb.prim fun _ => true)) Mode.emit ⟨[5], 0, 0, []⟩ =
      some (.error (Located.at 1 (Err.expectedFound [] (some 5) ⟨0, 1⟩)), ⟨[5], 1, 0, []⟩) :=
  (not_inverts 2 (Comb.prim fun _ => true) Mode.emit ⟨[5], 0, 0, []⟩).1 () ⟨[5], 1, 0, []⟩ rfl

/-! ## C4: `Repeated` with bounds over a run of matchable units

Evaluation lemmas for the `prim` leaf, then a full characterisation of
the `Repeated` loop over an input consisting of a run of tokens accepted
by the predicate followed by input on which the leaf stops. -/

theorem prim_ok {Tok : Type} (p : Tok → Bool) (fc : Nat) (toks : List Tok) (o st : Nat)
    (em : List (Err Tok)) (t : Tok) (ht : toks[o]? = some t) (hp : p t = true) :
    go (fc + 1) (.prim p) .emit ⟨toks, o, st, em⟩ = some (.ok (.tok t), ⟨toks, o + 1, st, em⟩) := by
  simp [go, Inp.next, ht, hp, Mode.bindV]

theorem prim_fail_tok {Tok : Type} (p : Tok → Bool) (fc : Nat) (toks : List Tok) (o st : Nat)
    (em : List (Err Tok)) (t : Tok) (ht : toks[o]? = some t) (hp : p t = false) :
    go (fc + 1) (.prim p) .emit ⟨toks, o, st, em⟩ =
      some (.error (Located.at (o + 1) (Err.expectedFound [] (some t) ⟨o, o + 1⟩)),
        ⟨toks, o + 1, st, em⟩) := by
  simp [go, Inp.next, ht, hp]

theorem prim_fail_eoi {Tok : Type} (p : Tok → Bool) (fc : Nat) (toks : List Tok) (o st : Nat)
    (em : List (Err Tok)) (ht : toks[o]? = none) :
    go (fc + 1) (.prim p) .emit ⟨toks, o, st, em⟩ =
      some (.error (Located.at o (Err.expectedFound [] none ⟨o, o⟩)), ⟨toks, o, st, em⟩) := by
  simp [go, Inp.next, ht]

theorem getElem?_of_drop {Tok : Type} {toks rest : List Tok} {o : Nat}
    (h : toks.drop o = rest) : toks[o]? = rest[0]? := by
  have h2 := List.getElem?_drop toks o 0
  rw [h] at h2
  simpa using h2.symm

theorem drop_succ_of_drop {Tok : Type} {toks : List Tok} {o : Nat} {g : Tok} {tl : List Tok}
    (h : toks.drop o = g :: tl) : toks.drop (o + 1) = tl := by
  have h2 : toks.drop (o + 1) = List.drop 1 (toks.drop o) := (List.drop_drop 1 o toks).symm
  rw [h2, h]
  rfl

/-- Characterisation of the `Repeated` loop with child `prim p`, bound
`at_most = some mx`, over an input whose remaining tokens are a run
`goods` of accepted tokens followed by `rest` on which the leaf stops:
the loop performs `max mx 1 - count` successful iterations if the run is
long enough (the `at_most` bound is checked only after a success, so
`at_most = 0` still costs one unit), otherwise it consumes the whole run
and then succeeds or fails according to `at_least` — in either of those
cases leaving the cursor at the end of the run, not at the loop entry. -/
theorem repLoop_prim {Tok : Type} (p : Tok → Bool) (fc al mx : Nat) (toks rest : List Tok)
    (hstop : stopsAt p rest = true) :
    ∀ (goods : List Tok) (o count lf : Nat) (vs : List (Val Tok)) (st : Nat)
      (em : List (Err Tok)),
      toks.drop o = goods ++ rest → (∀ t ∈ goods, p t = true) →
      count < max mx 1 → goods.length + 1 ≤ lf →
      repLoop .emit (go (fc + 1) (.prim p) .emit) al (some mx) count (.list vs) ⟨toks, o, st, em⟩ lf =
        (if max mx 1 - count ≤ goods.length then
          some (.ok (.list (vs ++ (goods.take (max mx 1 - count)).map .tok)),
            ⟨toks, o + (max mx 1 - count), st, em⟩)
        else if al ≤ count + goods.length then
          some (.ok (.list (vs ++ goods.map .tok)), ⟨toks, o + goods.length, st, em⟩)
        else
          some (.error (primStopErr rest (o + goods.length)),
            ⟨toks, o + goods.length, st, em⟩)) := by
  intro goods
  induction goods with
  | nil =>
    intro o count lf vs st em hdrop hg hcount hlf
    obtain ⟨lf, rfl⟩ : ∃ k, lf = k + 1 := ⟨lf - 1, by omega⟩
    simp only [List.length_nil, Nat.add_zero, List.take_nil, List.map_nil, List.append_nil]
    rw [if_neg (by omega : ¬ max mx 1 - count ≤ 0)]
    cases rest with
    | nil =>
      have ht : toks[o]? = none := by simpa using getElem?_of_drop hdrop
      have hch := prim_fail_eoi p fc toks o st em ht
      simp only [repLoop, hch]
      by_cases hal : al ≤ count
      · rw [if_pos hal, if_pos hal]
        simp [Inp.rewind]
      · rw [if_neg hal, if_neg hal]
        simp [Inp.rewind, primStopErr, Located.at]
    | cons t tl =>
      have ht : toks[o]? = some t := by simpa using getElem?_of_drop hdrop
      have hp : p t = false := by simpa [stopsAt] using hstop
      have hch := prim_fail_tok p fc toks o st em t ht hp
      simp only [repLoop, hch]
      by_cases hal : al ≤ count
      · rw [if_pos hal, if_pos hal]
        simp [Inp.rewind]
      · rw [if_neg hal, if_neg hal]
        simp [Inp.rewind, primStopErr, Located.at]
  | cons g gs ih =>
    intro o count lf vs st em hdrop hg hcount hlf
    obtain ⟨lf, rfl⟩ : ∃ k, lf = k + 1 := ⟨lf - 1, by omega⟩
    have ht : toks[o]? = some g := by simpa using getElem?_of_drop hdrop
    have hp : p g = true := hg g (by simp)
    have hch := prim_ok p fc toks o st em g ht hp
    simp only [repLoop, hch, Mode.push, Mode.combineV, Val.push, List.length_cons]
    by_cases hmx : mx ≤ count + 1
    · have hM : max mx 1 - count = 1 := by omega
      rw [if_pos hmx, if_pos (by omega : max mx 1 - count ≤ gs.length + 1), hM]
      simp
    · rw [if_neg hmx]
      have hdrop2 : toks.drop (o + 1) = gs ++ rest := drop_succ_of_drop (by simpa using hdrop)
      have hrec := ih (o + 1) (count + 1) lf (vs ++ [Val.tok g]) st em hdrop2
        (fun t htm => hg t (by simp [htm])) (by omega)
        (by simp only [List.length_cons] at hlf; omega)
      rw [hrec]
      by_cases h1 : max mx 1 - count ≤ gs.length + 1
      · have c1 : max mx 1 - (count + 1) ≤ gs.length := by omega
        rw [if_pos c1, if_pos h1]
        have hk : max mx 1 - count = (max mx 1 - (count + 1)) + 1 := by omega
        rw [hk, List.take_succ_cons]
        have hoff : o + 1 + (max mx 1 - (count + 1)) = o + (max mx 1 - (count + 1) + 1) := by
          omega
        rw [hoff]
        simp
      · have c1 : ¬ max mx 1 - (count + 1) ≤ gs.length := by omega
        rw [if_neg c1, if_neg h1]
        have hoff : o + 1 + gs.length = o + (gs.length + 1) := by omega
        by_cases h2 : al ≤ count + (gs.length + 1)
        · rw [if_pos (by omega : al ≤ count + 1 + gs.length), if_pos h2, hoff]
          simp
        · rw [if_neg (by omega : ¬ al ≤ count + 1 + gs.length), if_neg h2, hoff]

/-- C4 counterexample: `Repeated` with `at_least = 2`, `at_most = Some 5`
over an input with exactly one matchable unit (`k = 1 < n = 2`) fails —
but the cursor after the failure is at offset 1, not at the entry offset
0: the loop rewinds only the failed attempt, so the `k` successfully
consumed units stay consumed, refuting "when k < n it fails and consumes
nothing". -/
theorem repeated_bounds_counterexample :
    ((go 10 (Comb.repeated (Comb.prim fun t => t == 5) 2 (some 5)) Mode.emit
        ⟨[5, 0], 0, 0, []⟩).map (fun r => (isOkB r.1, r.2.off)) = some (false, 1))
      ∧ (1 : Nat) ≠ 0 :=
  ⟨rfl, by decide⟩

/-- C4 (amended): over an input of exactly `k` units matched by the child
followed by input on which the child stops, `Repeated` with
`at_least = n` and `at_most = Some m` behaves as follows. Because the
`at_most` check runs only after a successful attempt, the loop aims for
`max m 1` successes (so `m = 0` still consumes one unit when one is
available). If `max m 1 ≤ k` it succeeds consuming exactly `max m 1`
units; otherwise every attempt after the `k`-th fails, the failed attempt
alone is rewound, and the combinator succeeds iff `n ≤ k` — consuming
exactly `k` units in either case, so a failure leaves the cursor `k`
units past the entry point, not at the entry point. -/
theorem repeated_bounds {Tok : Type} (p : Tok → Bool) (goods rest : List Tok) (al mx : Nat)
    (fuel st : Nat) (em : List (Err Tok))
    (hg : ∀ t ∈ goods, p t = true) (hstop : stopsAt p rest = true)
    (hf : goods.length + 2 ≤ fuel) :
    go fuel (.repeated (.prim p) al (some mx)) .emit ⟨goods ++ rest, 0, st, em⟩ =
      if max mx 1 ≤ goods.length then
        some (.ok (.list ((goods.take (max mx 1)).map .tok)), ⟨goods ++ rest, max mx 1, st, em⟩)
      else if al ≤ goods.length then
        some (.ok (.list (goods.map .tok)), ⟨goods ++ rest, goods.length, st, em⟩)
      else
        some (.error (primStopErr rest goods.length), ⟨goods ++ rest, goods.length, st, em⟩) := by
  obtain ⟨f, rfl⟩ : ∃ k, fuel = k + 1 := ⟨fuel - 1, by omega⟩
  obtain ⟨fc, rfl⟩ : ∃ k, f = k + 1 := ⟨f - 1, by omega⟩
  have hloop := repLoop_prim p fc al mx (goods ++ rest) rest hstop goods 0 0 (fc + 1) [] st em
    (by simp) hg (by omega) (by omega)
  simp only [go, Mode.bindV]
  simpa using hloop

/-- Witness for C4: the amended behaviour at the counterexample input —
`k = 1`, `n = 2`, `m = 5`: the run fails with the cursor at offset 1 and
the error reporting the non-matching token `0`. -/
theorem repeated_bounds_witness :
    go 10 (Comb.repeated (Comb.prim fun t => t == 5) 2 (some 5)) Mode.emit ⟨[5, 0], 0, 0, []⟩ =
      some (.error (Located.at 2 (Err.expectedFound [] (some 0) ⟨1, 2⟩)), ⟨[5, 0], 1, 0, []⟩) := by
  have h := repeated_bounds (fun t => t == 5) [5] [0] 2 5 10 0 [] (by decide) (by decide)
    (by decide)
  rw [if_neg (by decide), if_neg (by decide)] at h
  exact h

/-! ## C2 and C9: the buffer discipline of `RepeatedExactly`

`rexTraceLoop` is `RepeatedExactly::go` in `Emit` mode with the buffer
operations made observable; first we show it is `go`'s `repeatedExactly`
case with the trace erased, then characterise its traces. -/

theorem rexTraceLoop_erases {Tok : Type} (childGo : GoFn Tok .emit) (n : Nat) :
    ∀ (lf i : Nat) (buf : List (Val Tok)) (tr : List BufOp) (inp : Inp Tok),
      (rexTraceLoop childGo n i buf tr inp lf).map (fun r => (r.1.1.map Val.list, r.1.2)) =
        rexLoop .emit childGo n i (.list buf) inp lf := by
  intro lf
  induction lf with
  | zero => intro i buf tr inp; rfl
  | succ lf ih =>
    intro i buf tr inp
    cases hc : childGo inp with
    | none => simp [rexTraceLoop, rexLoop, hc]
    | some r =>
      obtain ⟨r1, inp1⟩ := r
      cases r1 with
      | ok out =>
        by_cases hn : i + 1 = n
        · simp [rexTraceLoop, rexLoop, hc, hn, Mode.push, Mode.combineV, Val.push,
            Except.map]
        · simp only [rexTraceLoop, rexLoop, hc, if_neg hn, Mode.push, Mode.combineV,
            Val.push]
          exact ih (i + 1) (buf ++ [out]) (tr ++ [BufOp.write i]) inp1
      | error e => simp [rexTraceLoop, rexLoop, hc, Except.map]

/-- `RepeatedExactly::go` in `Emit` mode is the trace-erased
`rexTraceLoop` started on the empty buffer. -/
theorem go_repeatedExactly_eq_trace {Tok : Type} (fuel : Nat) (a : Comb Tok) (n : Nat)
    (inp : Inp Tok) :
    go (fuel + 1) (.repeatedExactly a n) .emit inp =
      (rexTraceLoop (go fuel a .emit) n 0 [] [] inp fuel).map
        (fun r => (r.1.1.map Val.list, r.1.2)) := by
  rw [rexTraceLoop_erases]
  simp [go, Mode.bindV]

/-- The trace discipline of the `RepeatedExactly` loop, from an arbitrary
start state: on failure at slot count `j`, the buffer operations since
entry are exactly the writes at slots `i, ..., j - 1` followed by one
`drop_before j`; on success they are the writes filling every remaining
slot up to `n` followed by one `take`. -/
theorem rexTraceLoop_shape {Tok : Type} (childGo : GoFn Tok .emit) (n : Nat) :
    ∀ (lf i : Nat) (buf : List (Val Tok)) (tr : List BufOp) (inp : Inp Tok)
      (res : Except (Located (Err Tok)) (List (Val Tok)) × Inp Tok) (trace : List BufOp),
      buf.length = i →
      rexTraceLoop childGo n i buf tr inp lf = some (res, trace) →
      (∀ e inp1, res = (.error e, inp1) →
        ∃ j, i ≤ j ∧
          trace = tr ++ (List.range' i (j - i)).map BufOp.write ++ [BufOp.dropBefore j]) ∧
      (∀ out inp1, res = (.ok out, inp1) →
        i ≤ n ∧ out.length = n ∧
          trace = tr ++ (List.range' i (n - i)).map BufOp.write ++ [BufOp.take]) := by
  intro lf
  induction lf with
  | zero => intro i buf tr inp res trace hbl h; simp [rexTraceLoop] at h
  | succ lf ih =>
    intro i buf tr inp res trace hbl h
    cases hc : childGo inp with
    | none => simp [rexTraceLoop, hc] at h
    | some r =>
      obtain ⟨r1, inp1⟩ := r
      cases r1 with
      | error e =>
        simp only [rexTraceLoop, hc] at h
        obtain ⟨hres, htrace⟩ := Prod.mk.injEq .. ▸ (Option.some.injEq .. ▸ h)
        constructor
        · intro e1 inpe he
          refine ⟨i, Nat.le_refl i, ?_⟩
          simp [← htrace, Nat.sub_self]
        · intro out inpo ho
          rw [← hres] at ho
          simp at ho
      | ok out =>
        by_cases hn : i + 1 = n
        · simp only [rexTraceLoop, hc, if_pos hn] at h
          obtain ⟨hres, htrace⟩ := Prod.mk.injEq .. ▸ (Option.some.injEq .. ▸ h)
          constructor
          · intro e1 inpe he
            rw [← hres] at he
            simp at he
          · intro o1 inpo ho
            rw [← hres] at ho
            obtain ⟨ho1, _⟩ := Prod.mk.injEq .. ▸ ho
            have hlen : o1 = buf ++ [out] := by
              simpa using ho1.symm
            refine ⟨by omega, by simp [hlen, hbl, ← hn], ?_⟩
            have hni : n - i = 1 := by omega
            simp [← htrace, hni, List.range']
        · simp only [rexTraceLoop, hc, if_neg hn] at h
          have hrec := ih (i + 1) (buf ++ [out]) (tr ++ [BufOp.write i]) inp1 res trace
            (by simp [hbl]) h
          constructor
          · intro e1 inpe he
            obtain ⟨j, hij, htr⟩ := hrec.1 e1 inpe he
            refine ⟨j, by omega, ?_⟩
            have hji : j - i = (j - (i + 1)) + 1 := by omega
            rw [htr, hji, List.range'_succ]
            simp
          · intro o1 inpo ho
            obtain ⟨hin, hlen, htr⟩ := hrec.2 o1 inpo ho
            refine ⟨by omega, hlen, ?_⟩
            have hni : n - i = (n - (i + 1)) + 1 := by omega
            rw [htr, hni, List.range'_succ]
            simp

/-- Write indices stay below the arity: from a start slot `i < n`, every
`write` the loop appends targets a slot `< n`, because the loop breaks as
soon as the count reaches `n`. -/
theorem rexTraceLoop_writes_lt {Tok : Type} (childGo : GoFn Tok .emit) (n : Nat) :
    ∀ (lf i : Nat) (buf : List (Val Tok)) (tr : List BufOp) (inp : Inp Tok)
      (res : Except (Located (Err Tok)) (List (Val Tok)) × Inp Tok) (trace : List BufOp),
      i < n → (∀ j, BufOp.write j ∈ tr → j < n) →
      rexTraceLoop childGo n i buf tr inp lf = some (res, trace) →
      ∀ j, BufOp.write j ∈ trace → j < n := by
  intro lf
  induction lf with
  | zero => intro i buf tr inp res trace hi htr h; simp [rexTraceLoop] at h
  | succ lf ih =>
    intro i buf tr inp res trace hi htr h
    cases hc : childGo inp with
    | none => simp [rexTraceLoop, hc] at h
    | some r =>
      obtain ⟨r1, inp1⟩ := r
      cases r1 with
      | error e =>
        simp only [rexTraceLoop, hc] at h
        obtain ⟨_, htrace⟩ := Prod.mk.injEq .. ▸ (Option.some.injEq .. ▸ h)
        intro j hj
        rw [← htrace] at hj
        rcases List.mem_append.1 hj with hj1 | hj2
        · exact htr j hj1
        · simp at hj2
      | ok out =>
        by_cases hn : i + 1 = n
        · simp only [rexTraceLoop, hc, if_pos hn] at h
          obtain ⟨_, htrace⟩ := Prod.mk.injEq .. ▸ (Option.some.injEq .. ▸ h)
          intro j hj
          rw [← htrace] at hj
          rcases List.mem_append.1 hj with hj1 | hj2
          · rcases List.mem_append.1 hj1 with hj3 | hj4
            · exact htr j hj3
            · have : j = i := by simpa using hj4
              omega
          · simp at hj2
        · simp only [rexTraceLoop, hc, if_neg hn] at h
          refine ih (i + 1) (buf ++ [out]) (tr ++ [BufOp.write i]) inp1 res trace
            (by omega) ?_ h
          intro j hj
          rcases List.mem_append.1 hj with hj1 | hj2
          · exact htr j hj1
          · have : j = i := by simpa using hj2
            omega

/-- The `RepeatedExactly` loop with child `prim p` over a run of fewer
matchable units than the remaining arity: every unit is written, then the
stopping attempt fails and the initialised prefix is dropped. -/
theorem rexTraceLoop_prim {Tok : Type} (p : Tok → Bool) (fc n : Nat) (toks rest : List Tok)
    (hstop : stopsAt p rest = true) :
    ∀ (goods : List Tok) (o i lf : Nat) (buf : List (Val Tok)) (tr : List BufOp)
      (st : Nat) (em : List (Err Tok)),
      toks.drop o = goods ++ rest → (∀ t ∈ goods, p t = true) →
      i + goods.length < n → goods.length + 1 ≤ lf →
      rexTraceLoop (go (fc + 1) (.prim p) .emit) n i buf tr ⟨toks, o, st, em⟩ lf =
        some ((.error (primStopErr rest (o + goods.length)), ⟨toks, o + goods.length, st, em⟩),
          tr ++ (List.range' i goods.length).map BufOp.write ++
            [BufOp.dropBefore (i + goods.length)]) := by
  intro goods
  induction goods with
  | nil =>
    intro o i lf buf tr st em hdrop hg hin hlf
    obtain ⟨lf, rfl⟩ : ∃ k, lf = k + 1 := ⟨lf - 1, by omega⟩
    cases rest with
    | nil =>
      have ht : toks[o]? = none := by simpa using getElem?_of_drop hdrop
      have hch := prim_fail_eoi p fc toks o st em ht
      simp [rexTraceLoop, hch, Inp.rewind, primStopErr, Located.at]
    | cons t tl =>
      have ht : toks[o]? = some t := by simpa using getElem?_of_drop hdrop
      have hp : p t = false := by simpa [stopsAt] using hstop
      have hch := prim_fail_tok p fc toks o st em t ht hp
      simp [rexTraceLoop, hch, Inp.rewind, primStopErr, Located.at]
  | cons g gs ih =>
    intro o i lf buf tr st em hdrop hg hin hlf
    obtain ⟨lf, rfl⟩ : ∃ k, lf = k + 1 := ⟨lf - 1, by omega⟩
    have ht : toks[o]? = some g := by simpa using getElem?_of_drop hdrop
    have hp : p g = true := hg g (by simp)
    have hch := prim_ok p fc toks o st em g ht hp
    have hn : ¬ i + 1 = n := by simp only [List.length_cons] at hin; omega
    simp only [rexTraceLoop, hch, if_neg hn]
    have hdrop2 : toks.drop (o + 1) = gs ++ rest := drop_succ_of_drop (by simpa using hdrop)
    have hrec := ih (o + 1) (i + 1) lf (buf ++ [Val.tok g]) (tr ++ [BufOp.write i]) st em hdrop2
      (fun t htm => hg t (by simp [htm]))
      (by simp only [List.length_cons] at hin; omega)
      (by simp only [List.length_cons] at hlf; omega)
    rw [hrec]
    have hoff : o + 1 + gs.length = o + (gs.length + 1) := by omega
    have hidx : i + 1 + gs.length = i + (gs.length + 1) := by omega
    rw [hoff, hidx, List.length_cons, List.range'_succ]
    simp

/-- C2: in `Emit` mode, for every arity `N`, child and input: if the
`RepeatedExactly` loop fails, the trace of buffer operations it performed
is exactly the writes at slots `0, ..., j - 1` (where `j` is the number
of child successes, i.e. of slots already written) followed by exactly
one `drop_before j` — so precisely the initialised prefix `[0, j)` is
dropped, no written slot is leaked and no uninitialised slot is touched —
and `take` appears only on the success path, after all `N` writes. In
particular, with a `prim` child over an input holding fewer than `N`
consecutive matchable units, the run fails with that exact discipline. -/
theorem repeatedExactly_drop_discipline :
    (∀ (Tok : Type) (childGo : GoFn Tok .emit) (n lf : Nat) (inp inp1 : Inp Tok)
        (e : Located (Err Tok)) (trace : List BufOp),
      rexTraceLoop childGo n 0 [] [] inp lf = some ((.error e, inp1), trace) →
      ∃ j, trace = (List.range j).map BufOp.write ++ [BufOp.dropBefore j]) ∧
    (∀ (Tok : Type) (childGo : GoFn Tok .emit) (n lf : Nat) (inp inp1 : Inp Tok)
        (out : List (Val Tok)) (trace : List BufOp),
      rexTraceLoop childGo n 0 [] [] inp lf = some ((.ok out, inp1), trace) →
      out.length = n ∧ trace = (List.range n).map BufOp.write ++ [BufOp.take]) ∧
    (∀ (p : Nat → Bool) (goods rest : List Nat) (n fc lf : Nat),
      (∀ t ∈ goods, p t = true) → stopsAt p rest = true → goods.length < n →
      goods.length + 1 ≤ lf →
      rexTraceLoop (go (fc + 1) (.prim p) .emit) n 0 [] [] ⟨goods ++ rest, 0, 0, []⟩ lf =
        some ((.error (primStopErr rest goods.length), ⟨goods ++ rest, goods.length, 0, []⟩),
          (List.range goods.length).map BufOp.write ++ [BufOp.dropBefore goods.length])) := by
  refine ⟨?_, ?_, ?_⟩
  · intro Tok childGo n lf inp inp1 e trace h
    obtain ⟨j, hij, htr⟩ :=
      (rexTraceLoop_shape childGo n lf 0 [] [] inp (.error e, inp1) trace rfl h).1 e inp1 rfl
    refine ⟨j, ?_⟩
    rw [htr, List.range_eq_range']
    simp
  · intro Tok childGo n lf inp inp1 out trace h
    obtain ⟨_, hlen, htr⟩ :=
      (rexTraceLoop_shape childGo n lf 0 [] [] inp (.ok out, inp1) trace rfl h).2 out inp1 rfl
    refine ⟨hlen, ?_⟩
    rw [htr, List.range_eq_range']
    simp
  · intro p goods rest n fc lf hg hstop hlt hlf
    have h := rexTraceLoop_prim p fc n (goods ++ rest) rest hstop goods 0 0 lf [] [] 0 []
      (by simp) hg (by omega) hlf
    rw [List.range_eq_range']
    simpa using h

/-- Witness for C2: a `prim` child matching `9` with arity `N = 2` over
the input `[9]` (one matchable unit): the run fails after writing slot 0
and dropping exactly the prefix `[0, 1)`. -/
theorem repeatedExactly_drop_discipline_witness :
    rexTraceLoop (go 2 (Comb.prim fun t => t == 9) Mode.emit) 2 0 [] [] ⟨[9], 0, 0, []⟩ 2 =
      some ((.error (primStopErr [] 1), ⟨[9], 1, 0, []⟩),
        (List.range 1).map BufOp.write ++ [BufOp.dropBefore 1]) :=
  repeatedExactly_drop_discipline.2.2 (fun t => t == 9) [9] [] 2 1 2 (by decide) (by decide)
    (by decide) (by decide)

/-- C9: for every arity `N ≥ 1`, every child and every input, every
`write` in the trace of the `RepeatedExactly` loop targets a slot index
strictly below `N` (the loop exits as soon as the count reaches `N`);
the hypothesis `N ≥ 1` is required: with `N = 0`, a successful child
parse reaches a write at index 0 before the `i == N` check, as the
recorded trace of the second conjunct shows. -/
theorem repeatedExactly_write_bounds :
    (∀ (Tok : Type) (childGo : GoFn Tok .emit) (n : Nat), 1 ≤ n →
      ∀ (lf : Nat) (inp : Inp Tok)
        (res : Except (Located (Err Tok)) (List (Val Tok)) × Inp Tok) (trace : List BufOp),
        rexTraceLoop childGo n 0 [] [] inp lf = some (res, trace) →
        ∀ j, BufOp.write j ∈ trace → j < n) ∧
    ((rexTraceLoop (go 2 (Comb.prim fun _ => true) Mode.emit) 0 0 [] [] ⟨[9], 0, 0, []⟩ 3).map
        Prod.snd = some [BufOp.write 0, BufOp.dropBefore 1]) := by
  constructor
  · intro Tok childGo n hn lf inp res trace h
    exact rexTraceLoop_writes_lt childGo n lf 0 [] [] inp res trace hn
      (by intro j hj; simp at hj) h
  · rfl

/-- Witness for C9: with `N = 2`, a child matching anything and the input
`[9]`, the recorded trace is `[write 0, drop_before 1]` and every write
index in it is below 2. -/
theorem repeatedExactly_write_bounds_witness :
    ∀ j, BufOp.write j ∈ [BufOp.write 0, BufOp.dropBefore 1] → j < 2 :=
  repeatedExactly_write_bounds.1 Nat (go 2 (Comb.prim fun _ => true) Mode.emit) 2
    (by decide) 3 ⟨[9], 0, 0, []⟩
    (.error (Located.at 1 (Err.expectedFound [] none ⟨1, 1⟩)), ⟨[9], 1, 0, []⟩)
    [BufOp.write 0, BufOp.dropBefore 1] rfl

end ZeroCopy
